import Mathlib

/-!
# mdat_conv: a shallow embedding of `src/mdat_conv.C`

The ROOT macro `mdat_conv.C` converts a detector `.mdat` byte stream into a
tree of event records.  This file embeds its reading functions and its driver
loop as Lean functions and proves properties of them.

Modelling conventions
* Machine integers are natural numbers; a narrowing store into a `uintN_t`
  field is written `% 2 ^ N` at the place where the source narrows.
* An `ifstream` is the list of bytes not yet extracted, the number of bytes
  extracted so far, and one flag that is set as soon as a read comes up short
  (`eofbit | failbit`); once it is set every later `read` extracts nothing and
  leaves its destination untouched, as `std::istream::read` does.
* The host is little-endian, so the raw two-byte load of the bytes `b0 b1`
  into a `uint16_t` is `b0 + 256 * b1`.
* The locals `low`, `mid`, `high` of `ReadEntry` are not initialised by the
  source.  Their indeterminate initial contents are an explicit argument
  (`Locals`); every theorem quantifies over them.
* Console output (`cout`, the `debug` flag) does not influence the state and is
  left out.
-/

namespace MdatConv

/-! ## Global variables -/

/-- One `char` of the input file. -/
abbrev Byte := Fin 256

/-- Mask of the event identifier, line 10. -/
def mask_eventID : Nat := 0b100000000000000000000000000000000000000000000000
/-- Mask of the amplitude, line 11. -/
def mask_amp : Nat :=     0b011111111000000000000000000000000000000000000000
/-- Mask of the stripe number, line 12. -/
def mask_ypos : Nat :=    0b000000000111111111100000000000000000000000000000
/-- Mask of the wire number, line 13. -/
def mask_xpos : Nat :=    0b000000000000000000011111111110000000000000000000
/-- Mask of the in-buffer time stamp, line 14. -/
def mask_time : Nat :=    0b000000000000000000000000000001111111111111111111

/-- The global `header` (lines 18-31). -/
structure Header where
  bufferlength : Nat
  buffertype : Nat
  headerlength : Nat
  buffernumber : Nat
  runID : Nat
  mcpdID : Nat
  status : Nat
  headerTS : Nat
  param0 : Nat
  param1 : Nat
  param2 : Nat
  param3 : Nat
deriving DecidableEq

/-- The global `event` (lines 34-41). -/
structure Event where
  xpos : Nat
  ypos : Nat
  amp : Nat
  time : Nat
  eventID : Nat
  eventTS : Nat
deriving DecidableEq

/-! ## The input stream -/

/-- State of the `ifstream`: the bytes not yet extracted, the count of bytes
extracted so far, and whether the stream has left the good state. -/
structure ifstream where
  rest : List Byte
  pos : Nat
  fail : Bool
deriving DecidableEq

/-- A freshly opened binary file holding `data`. -/
def ifstream.open (data : List Byte) : ifstream :=
  { rest := data, pos := 0, fail := false }

/-- The call `infile.read(buf, n)`: the new stream state and the bytes that
were stored into `buf` (fewer than `n` on a short read, none when the stream
had already failed). -/
def ifstream.read (infile : ifstream) (n : Nat) : ifstream × List Byte :=
  if infile.fail then (infile, [])
  else
    ({ rest := infile.rest.drop n,
       pos := infile.pos + (infile.rest.take n).length,
       fail := decide ((infile.rest.take n).length < n) },
     infile.rest.take n)

/-- Contents of a `uint16_t` that held `word` after `got` was stored at its
address on the little-endian host. -/
def loadWord (got : List Byte) (word : Nat) : Nat :=
  match got with
  | [b0, b1] => b0.val + 256 * b1.val
  | [b0] => b0.val + 256 * (word / 256 % 256)
  | _ => word

/-- Contents of a `uint8_t` that held `byte` after `got` was stored at its
address. -/
def loadByte (got : List Byte) (byte : Nat) : Nat :=
  match got with
  | b :: _ => b.val
  | [] => byte

/-! ## File reading functions -/

/-- The function `ByteSwap16` (lines 49-51): `word = (word)<<8 | (word)>>8`,
computed in `int` and narrowed back to sixteen bits. -/
def ByteSwap16 (word : Nat) : Nat :=
  ((word <<< 8) ||| (word >>> 8)) % 2 ^ 16

/-- The function `ReadWord` (lines 54-57); `word` is the previous content of
the destination. -/
def ReadWord (infile : ifstream) (word : Nat) : ifstream × Nat :=
  let r := infile.read 2
  (r.1, ByteSwap16 (loadWord r.2 word))

/-- The function `ReadByte` (lines 60-62). -/
def ReadByte (infile : ifstream) (byte : Nat) : ifstream × Nat :=
  let r := infile.read 1
  (r.1, loadByte r.2 byte)

/-- Indeterminate initial contents of the three locals of `ReadEntry`. -/
structure Locals where
  low : Nat
  mid : Nat
  high : Nat

/-- The function `ReadEntry` (lines 66-72). -/
def ReadEntry (infile : ifstream) (u : Locals) : ifstream × Nat :=
  let r1 := ReadWord infile u.low
  let r2 := ReadWord r1.1 u.mid
  let r3 := ReadWord r2.1 u.high
  (r3.1, (r1.2 ||| (r2.2 <<< 16) ||| (r3.2 <<< 32)) % 2 ^ 64)

/-- The function `ReadHeader` (lines 75-78): 58 bytes are read and dropped. -/
def ReadHeader (infile : ifstream) : ifstream :=
  (infile.read 58).1

/-- The function `ReadBuffer` (lines 81-101).  The result is the stream, the
global header and the returned `int`; `u k` holds the indeterminate locals of
the `k`-th `ReadEntry` call. -/
def ReadBuffer (infile : ifstream) (header : Header) (u : Nat → Locals) :
    ifstream × Header × Nat :=
  let r1 := ReadWord infile header.bufferlength
  let r2 := ReadWord r1.1 header.buffertype
  if r2.2 ≠ 0x0002 then
    (r2.1, { header with bufferlength := r1.2, buffertype := r2.2 }, 1)
  else
    let r3 := ReadWord r2.1 header.headerlength
    let r4 := ReadWord r3.1 header.buffernumber
    let r5 := ReadWord r4.1 header.runID
    let r6 := ReadByte r5.1 header.mcpdID
    let r7 := ReadByte r6.1 header.status
    let r8 := ReadEntry r7.1 (u 0)
    let r9 := ReadEntry r8.1 (u 1)
    let r10 := ReadEntry r9.1 (u 2)
    let r11 := ReadEntry r10.1 (u 3)
    let r12 := ReadEntry r11.1 (u 4)
    (r12.1,
     { bufferlength := r1.2, buffertype := r2.2, headerlength := r3.2,
       buffernumber := r4.2, runID := r5.2, mcpdID := r6.2, status := r7.2,
       headerTS := r8.2, param0 := r9.2, param1 := r10.2, param2 := r11.2,
       param3 := r12.2 },
     0)

/-- Lines 107-112 of `ReadEvent`: the raw entry is split into the fields of the
global `event`, each narrowed to the width of its field. -/
def splitEvent (rawevent : Nat) (header : Header) : Event :=
  let eventID := ((rawevent &&& mask_eventID) >>> 47) % 2 ^ 8
  let amp := ((rawevent &&& mask_amp) >>> 39) % 2 ^ 16
  let ypos := ((rawevent &&& mask_ypos) >>> 29) % 2 ^ 16
  let xpos := ((rawevent &&& mask_xpos) >>> 19) % 2 ^ 16
  let eventTS := (rawevent &&& mask_time) % 2 ^ 32
  { eventID := eventID, amp := amp, ypos := ypos, xpos := xpos,
    eventTS := eventTS, time := (eventTS + header.headerTS) % 2 ^ 64 }

/-- The function `ReadEvent` (lines 104-113). -/
def ReadEvent (infile : ifstream) (header : Header) (u : Locals) :
    ifstream × Event :=
  let r := ReadEntry infile u
  (r.1, splitEvent r.2 header)

/-- The function `ReadBufferEnd` (lines 115-123): four words are read into a
local that is only printed. -/
def ReadBufferEnd (infile : ifstream) : ifstream :=
  (ReadWord (ReadWord (ReadWord (ReadWord infile 0).1 0).1 0).1 0).1

/-! ## Main -/

/-- One entry of the tree `rawdata`: the twelve branches of lines 177-188. -/
structure Record where
  xpos : Nat
  ypos : Nat
  amp : Nat
  time : Nat
  eventID : Nat
  eventTS : Nat
  mcpdID : Nat
  status : Nat
  param0 : Nat
  param1 : Nat
  param2 : Nat
  param3 : Nat
deriving DecidableEq

/-- The call `rawdata->Fill()`: the branch addresses are read at that moment. -/
def Fill (header : Header) (event : Event) : Record :=
  { xpos := event.xpos, ypos := event.ypos, amp := event.amp,
    time := event.time, eventID := event.eventID, eventTS := event.eventTS,
    mcpdID := header.mcpdID, status := header.status,
    param0 := header.param0, param1 := header.param1,
    param2 := header.param2, param3 := header.param3 }

/-- What `mdat_conv` works on: the stream, the two globals, the entries of the
tree in the order they were filled, and the two counters it reports. -/
structure State where
  infile : ifstream
  header : Header
  event : Event
  rawdata : List Record
  buffer_num : Nat
  entry_num : Nat
deriving DecidableEq

/-- Body of the `for` loop, lines 212-220. -/
def eventBody (st : State) (u : Locals) : State :=
  let r := ReadEvent st.infile st.header u
  { st with
    infile := r.1, event := r.2,
    entry_num := (st.entry_num + 1) % 2 ^ 64,
    rawdata := st.rawdata ++ [Fill st.header r.2] }

/-- The `for` loop of lines 210-221 run for `n` iterations; `u i` holds the
indeterminate locals of the `i`-th `ReadEvent`. -/
def eventLoop : Nat → State → (Nat → Locals) → State
  | 0, st, _ => st
  | n + 1, st, u => eventLoop n (eventBody st (u 0)) (fun i => u (i + 1))

/-- The expression `(header.bufferlength - 21) / 3` of line 208, evaluated in
`int`: the division truncates toward zero. -/
def buffer_entries (header : Header) : Int :=
  Int.tdiv ((header.bufferlength : Int) - 21) 3

/-- One pass through the body of `while(true)` (lines 203-224): the flag is
`true` when the `break` is taken, with the state at that point, otherwise the
state at the end of the body. -/
def bufferBody (st : State) (u : Nat → Locals) : State × Bool :=
  let rb := ReadBuffer st.infile st.header u
  if rb.2.2 = 1 then
    ({ st with infile := rb.1, header := rb.2.1 }, true)
  else
    let st1 := { st with
      infile := rb.1, header := rb.2.1,
      buffer_num := (st.buffer_num + 1) % 2 ^ 64 }
    let st2 := eventLoop (buffer_entries st1.header).toNat st1 (fun i => u (5 + i))
    ({ st2 with infile := ReadBufferEnd st2.infile }, false)

/-- The loop `while(true)` of lines 201-226 with a bound on the number of
passes: `none` means the bound was reached before the `break`.  `u b` holds
the indeterminate locals of pass `b`. -/
def bufferLoop : Nat → State → (Nat → Nat → Locals) → Option State
  | 0, _, _ => none
  | fuel + 1, st, u =>
    let r := bufferBody st (u 0)
    if r.2 then some r.1 else bufferLoop fuel r.1 (fun b => u (b + 1))

/-- The macro `mdat_conv` (lines 161-237) on a file that opened and holds
`file`; `header` and `event` are the globals as the macro finds them. -/
def mdat_conv (fuel : Nat) (file : List Byte) (header : Header) (event : Event)
    (u : Nat → Nat → Locals) : Option State :=
  bufferLoop fuel
    { infile := ReadHeader (ifstream.open file), header := header, event := event,
      rawdata := [], buffer_num := 0, entry_num := 0 } u

/-! ## Vocabulary of the statements

The definitions below are not taken from the source: they name the positions,
bytes and big-endian numbers that the statements about the source speak of. -/

/-- The stream `infile` after `n` more bytes were extracted and no read came up
short. -/
def ifstream.advance (infile : ifstream) (n : Nat) : ifstream :=
  { rest := infile.rest.drop n, pos := infile.pos + n, fail := false }

/-- The byte at offset `i` of `bs` as a number (`0` past the end). -/
def byteAt (bs : List Byte) (i : Nat) : Nat :=
  (bs.getD i 0).val

/-- The sixteen-bit number whose most significant byte is at offset `i` of `bs`
and whose least significant byte is at offset `i + 1`. -/
def wordAt (bs : List Byte) (i : Nat) : Nat :=
  byteAt bs i * 256 + byteAt bs (i + 1)

/-- The 48-bit number made of the three words at offsets `i`, `i + 2`, `i + 4`
of `bs`, the first being the least significant. -/
def entryAt (bs : List Byte) (i : Nat) : Nat :=
  wordAt bs i + wordAt bs (i + 2) * 2 ^ 16 + wordAt bs (i + 4) * 2 ^ 32

/-- The byte of value `n % 256`. -/
def toByte (n : Nat) : Byte :=
  ⟨n % 256, Nat.mod_lt n (by decide)⟩

/-- The six bytes that carry the 48-bit value `v` in the file: its low, middle
and high word in that order, each with its most significant byte first. -/
def entryBytes (v : Nat) : List Byte :=
  [toByte (v >>> 8), toByte v, toByte (v >>> 24), toByte (v >>> 16),
   toByte (v >>> 40), toByte (v >>> 32)]

/-- The event word that packs the five fields at the documented positions. -/
def packEvent (eventKind amplitude yPos xPos bufferRelativeTime : Nat) : Nat :=
  eventKind * 2 ^ 47 + amplitude * 2 ^ 39 + yPos * 2 ^ 29 + xPos * 2 ^ 19
    + bufferRelativeTime

/-- The global `header` at program start: static storage is zero-initialised. -/
def header0 : Header :=
  { bufferlength := 0, buffertype := 0, headerlength := 0, buffernumber := 0,
    runID := 0, mcpdID := 0, status := 0, headerTS := 0, param0 := 0,
    param1 := 0, param2 := 0, param3 := 0 }

/-- The global `event` at program start. -/
def event0 : Event :=
  { xpos := 0, ypos := 0, amp := 0, time := 0, eventID := 0, eventTS := 0 }

/-- Locals that happen to hold zero. -/
def locals0 : Locals :=
  { low := 0, mid := 0, high := 0 }

/-- The header that the 42 bytes at the front of `bs` describe: five words,
two bytes and five 48-bit entries, in that order. -/
def headerAt (bs : List Byte) : Header :=
  { bufferlength := wordAt bs 0, buffertype := wordAt bs 2, headerlength := wordAt bs 4,
    buffernumber := wordAt bs 6, runID := wordAt bs 8, mcpdID := byteAt bs 10,
    status := byteAt bs 11, headerTS := entryAt bs 12, param0 := entryAt bs 18,
    param1 := entryAt bs 24, param2 := entryAt bs 30, param3 := entryAt bs 36 }

/-- The record that the documented bit layout assigns to the event word `w` of
a buffer whose header bytes are at the front of `head`. -/
def decodeRecord (head : List Byte) (w : Nat) : Record :=
  { xpos := w / 2 ^ 19 % 2 ^ 10, ypos := w / 2 ^ 29 % 2 ^ 10, amp := w / 2 ^ 39 % 2 ^ 8,
    time := w % 2 ^ 19 + entryAt head 12, eventID := w / 2 ^ 47, eventTS := w % 2 ^ 19,
    mcpdID := byteAt head 10, status := byteAt head 11, param0 := entryAt head 18,
    param1 := entryAt head 24, param2 := entryAt head 30, param3 := entryAt head 36 }

/-- The two bytes that carry the sixteen-bit value `w` in the file. -/
def wordBytes (w : Nat) : List Byte :=
  [toByte (w >>> 8), toByte w]

/-- A sample header of 42 bytes: buffer of `21 + 3 * n` words, type `0x0002`,
header length 21, buffer number `num`, run 9, device 1, status 0, timestamp
`ts` and the parameters 11, 12, 13, 14. -/
def sampleHead (n num ts : Nat) : List Byte :=
  wordBytes (21 + 3 * n) ++ wordBytes 0x0002 ++ wordBytes 21 ++ wordBytes num ++
    wordBytes 9 ++ [1, 0] ++ entryBytes ts ++ entryBytes 11 ++ entryBytes 12 ++
    entryBytes 13 ++ entryBytes 14

/-- A sample buffer with one event, followed by four padding words. -/
def sampleBuffer : List Byte :=
  sampleHead 1 7 1000 ++ entryBytes (packEvent 0 3 7 5 100) ++ List.replicate 8 0

/-- A state of the driver that is about to read `sampleBuffer`. -/
def sampleState : State :=
  { infile := ifstream.open sampleBuffer, header := header0, event := event0,
    rawdata := [], buffer_num := 0, entry_num := 0 }

/-- The bytes of one buffer in the file, cut at its three parts. -/
structure WireBuffer where
  head : List Byte
  events : List (List Byte)
  padding : List Byte

/-- A complete well-formed buffer: 42 header bytes whose type word is `0x0002`
and whose length word is `21 + 3 * N`, then `N` event words of six bytes, then
four padding words. -/
def WireBuffer.wellFormed (b : WireBuffer) : Prop :=
  b.head.length = 42 ∧ wordAt b.head 2 = 0x0002 ∧
    wordAt b.head 0 = 21 + 3 * b.events.length ∧
    (∀ e ∈ b.events, e.length = 6) ∧ b.padding.length = 8

instance WireBuffer.decidableWellFormed (b : WireBuffer) : Decidable b.wellFormed := by
  unfold WireBuffer.wellFormed
  infer_instance

/-- The bytes of the buffer as they follow one another in the file. -/
def WireBuffer.bytes (b : WireBuffer) : List Byte :=
  b.head ++ b.events.flatten ++ b.padding

/-- The records the buffer stands for: the decoding of each of its event words,
in the order of the file. -/
def WireBuffer.records (b : WireBuffer) : List Record :=
  b.events.map (fun e => decodeRecord b.head (entryAt e 0))

/-- The bytes of a list of buffers that follow one another. -/
def wireBytes (bufs : List WireBuffer) : List Byte :=
  (bufs.map WireBuffer.bytes).flatten

/-- The records of a list of buffers, buffer after buffer. -/
def wireRecords (bufs : List WireBuffer) : List Record :=
  (bufs.map WireBuffer.records).flatten

/-- The number of event words in a list of buffers. -/
def wireEvents (bufs : List WireBuffer) : Nat :=
  (bufs.map (fun b => b.events.length)).sum

/-- Two sample buffers: one event, then two events. -/
def sampleBuffers : List WireBuffer :=
  [{ head := sampleHead 1 7 1000, events := [entryBytes (packEvent 0 3 7 5 100)],
     padding := List.replicate 8 0 },
   { head := sampleHead 2 8 2000,
     events := [entryBytes (2 ^ 47), entryBytes (packEvent 1 127 1023 1023 524287)],
     padding := List.replicate 8 255 }]

/-- A sample preamble of 58 bytes. -/
def samplePreamble : List Byte :=
  List.replicate 58 170

/-- A sample header that ends the stream: its type word is `0x0000`. -/
def sampleEnd : List Byte :=
  [0, 21, 0, 0]

/-- A sample buffer whose length word, 5, is below the 21 words of a header:
a header of type `0x0002` with all other fields zero and the four padding
words. -/
def sampleShortBuffer : List Byte :=
  wordBytes 5 ++ wordBytes 0x0002 ++ List.replicate 38 0 ++ List.replicate 8 0

/-- A state of the driver that is about to read `sampleShortBuffer`. -/
def sampleShortState : State :=
  { infile := ifstream.open sampleShortBuffer, header := header0, event := event0,
    rawdata := [], buffer_num := 0, entry_num := 0 }

/-- The stream `s2` is what further reads can make of `s1`: no byte comes
back, and a stream that has failed stays exactly as it is. -/
def ifstream.Later (s1 s2 : ifstream) : Prop :=
  s2.rest.length ≤ s1.rest.length ∧ (s1.fail = true → s2 = s1)

/-- A bound on the passes of the buffer loop that can still follow: on a good
stream every further pass that does not break uses up bytes; on a failed
stream the type word is only swapped again, so at most one more pass can find
`0x0002`. -/
def loopMeasure (st : State) : Nat :=
  if st.infile.fail then (if ByteSwap16 st.header.buffertype = 0x0002 then 1 else 0)
  else st.infile.rest.length + 2

/-- A sample file that ends in the middle of an event: the preamble, a header
that announces one event, and only three of the six bytes of that event. -/
def truncatedFile : List Byte :=
  samplePreamble ++ sampleHead 1 7 1000 ++ [0x12, 0x34, 0x56]

/-- The state of the driver on `truncatedFile` when the event read is
attempted: the header has been read and three bytes are left. -/
def truncatedState : State :=
  { infile := { rest := [0x12, 0x34, 0x56], pos := 100, fail := false },
    header := headerAt (sampleHead 1 7 1000), event := event0, rawdata := [],
    buffer_num := 1, entry_num := 0 }

/-- The sample file `samplePreamble ++ sampleBuffer ++ sampleEnd` with another
preamble. -/
def sampleFileZeroPreamble : List Byte :=
  List.replicate 58 0 ++ sampleBuffer ++ sampleEnd

/-! ## Arithmetic of the masks and shifts -/

theorem and_mask_shiftRight (w n k : Nat) :
    (w &&& ((2 ^ n - 1) <<< k)) >>> k = (w / 2 ^ k) % 2 ^ n := by
  rw [← Nat.shiftRight_eq_div_pow]
  apply Nat.eq_of_testBit_eq
  intro j
  simp only [Nat.testBit_shiftRight, Nat.testBit_and, Nat.testBit_shiftLeft,
    Nat.testBit_two_pow_sub_one, Nat.testBit_mod_two_pow]
  have h1 : k + j - k = j := by omega
  have h2 : k + j ≥ k := by omega
  simp [h1, h2, Bool.and_comm]

theorem mask_eventID_eq : mask_eventID = (2 ^ 1 - 1) <<< 47 := by decide
theorem mask_amp_eq : mask_amp = (2 ^ 8 - 1) <<< 39 := by decide
theorem mask_ypos_eq : mask_ypos = (2 ^ 10 - 1) <<< 29 := by decide
theorem mask_xpos_eq : mask_xpos = (2 ^ 10 - 1) <<< 19 := by decide
theorem mask_time_eq : mask_time = 2 ^ 19 - 1 := by decide

theorem or_shiftLeft_eq_add (a b k : Nat) (ha : a < 2 ^ k) :
    a ||| (b <<< k) = a + b * 2 ^ k := by
  rw [Nat.shiftLeft_eq, Nat.or_comm, Nat.mul_comm b, ← Nat.mul_add_lt_is_or ha]
  omega

theorem ByteSwap16_bytes (a b : Nat) (ha : a < 256) (hb : b < 256) :
    ByteSwap16 (a + 256 * b) = a * 256 + b := by
  unfold ByteSwap16
  have h1 : (a + 256 * b) >>> 8 = b := by
    rw [Nat.shiftRight_eq_div_pow]; omega
  have h2 : (a + 256 * b) <<< 8 = 2 ^ 8 * (a + 256 * b) := by
    rw [Nat.shiftLeft_eq, Nat.mul_comm]
  rw [h1, h2, ← Nat.mul_add_lt_is_or (by omega)]
  omega

theorem ByteSwap16_lt (w : Nat) : ByteSwap16 w < 2 ^ 16 := by
  unfold ByteSwap16
  exact Nat.mod_lt _ (by decide)

/-! ## Reads that find enough bytes -/

theorem byteAt_lt (bs : List Byte) (i : Nat) : byteAt bs i < 256 :=
  (bs.getD i 0).isLt

theorem wordAt_lt (bs : List Byte) (i : Nat) : wordAt bs i < 2 ^ 16 := by
  have h1 := byteAt_lt bs i
  have h2 := byteAt_lt bs (i + 1)
  unfold wordAt
  omega

theorem entryAt_lt (bs : List Byte) (i : Nat) : entryAt bs i < 2 ^ 48 := by
  have h1 := wordAt_lt bs i
  have h2 := wordAt_lt bs (i + 2)
  have h3 := wordAt_lt bs (i + 4)
  unfold entryAt
  omega

theorem byteAt_drop (bs : List Byte) (n i : Nat) :
    byteAt (bs.drop n) i = byteAt bs (n + i) := by
  simp [byteAt, List.getElem?_drop]

theorem wordAt_drop (bs : List Byte) (n i : Nat) :
    wordAt (bs.drop n) i = wordAt bs (n + i) := by
  simp [wordAt, byteAt_drop, Nat.add_assoc]

theorem entryAt_drop (bs : List Byte) (n i : Nat) :
    entryAt (bs.drop n) i = entryAt bs (n + i) := by
  simp [entryAt, wordAt_drop, Nat.add_assoc]

theorem byteAt_append_left (as bs : List Byte) (i : Nat) (h : i < as.length) :
    byteAt (as ++ bs) i = byteAt as i := by
  simp [byteAt, List.getElem?_append_left h]

theorem wordAt_append_left (as bs : List Byte) (i : Nat) (h : i + 1 < as.length) :
    wordAt (as ++ bs) i = wordAt as i := by
  unfold wordAt
  rw [byteAt_append_left as bs i (by omega), byteAt_append_left as bs (i + 1) h]

theorem entryAt_append_left (as bs : List Byte) (i : Nat) (h : i + 5 < as.length) :
    entryAt (as ++ bs) i = entryAt as i := by
  unfold entryAt
  rw [wordAt_append_left as bs i (by omega), wordAt_append_left as bs (i + 2) (by omega),
    wordAt_append_left as bs (i + 4) (by omega)]

@[simp] theorem advance_rest (s : ifstream) (n : Nat) :
    (s.advance n).rest = s.rest.drop n := rfl

@[simp] theorem advance_pos (s : ifstream) (n : Nat) :
    (s.advance n).pos = s.pos + n := rfl

@[simp] theorem advance_fail (s : ifstream) (n : Nat) :
    (s.advance n).fail = false := rfl

theorem advance_advance (s : ifstream) (m n : Nat) :
    (s.advance m).advance n = s.advance (m + n) := by
  simp [ifstream.advance, Nat.add_assoc]

theorem read_ok (s : ifstream) (n : Nat) (hgood : s.fail = false)
    (hlen : n ≤ s.rest.length) : s.read n = (s.advance n, s.rest.take n) := by
  have h : (s.rest.take n).length = n := by simp [List.length_take, hlen]
  simp [ifstream.read, ifstream.advance, hgood, h]

theorem ReadWord_ok (s : ifstream) (word : Nat) (hgood : s.fail = false)
    (hlen : 2 ≤ s.rest.length) :
    ReadWord s word = (s.advance 2, wordAt s.rest 0) := by
  unfold ReadWord
  rw [read_ok s 2 hgood hlen]
  obtain ⟨rest, pos, fail⟩ := s
  match rest, hlen with
  | b0 :: b1 :: t, _ =>
    simp only [List.take, loadWord, wordAt, byteAt, List.getD_cons_zero,
      List.getD_cons_succ]
    rw [ByteSwap16_bytes _ _ b0.isLt b1.isLt]

theorem ReadByte_ok (s : ifstream) (byte : Nat) (hgood : s.fail = false)
    (hlen : 1 ≤ s.rest.length) :
    ReadByte s byte = (s.advance 1, byteAt s.rest 0) := by
  unfold ReadByte
  rw [read_ok s 1 hgood hlen]
  obtain ⟨rest, pos, fail⟩ := s
  match rest, hlen with
  | b0 :: t, _ =>
    simp only [List.take, loadByte, byteAt, List.getD_cons_zero]

theorem or_words_eq (a b c : Nat) (ha : a < 2 ^ 16) (hb : b < 2 ^ 16) (hc : c < 2 ^ 16) :
    (a ||| (b <<< 16) ||| (c <<< 32)) % 2 ^ 64 = a + b * 2 ^ 16 + c * 2 ^ 32 := by
  rw [or_shiftLeft_eq_add a b 16 ha, or_shiftLeft_eq_add _ c 32 (by omega)]
  omega

theorem ReadWord_lt (s : ifstream) (word : Nat) : (ReadWord s word).2 < 2 ^ 16 :=
  ByteSwap16_lt _

theorem ReadEntry_lt (s : ifstream) (u : Locals) : (ReadEntry s u).2 < 2 ^ 48 := by
  unfold ReadEntry
  simp only []
  rw [or_words_eq _ _ _ (ReadWord_lt _ _) (ReadWord_lt _ _) (ReadWord_lt _ _)]
  have h1 := ReadWord_lt s u.low
  have h2 := ReadWord_lt (ReadWord s u.low).1 u.mid
  have h3 := ReadWord_lt (ReadWord (ReadWord s u.low).1 u.mid).1 u.high
  omega

theorem ReadEntry_ok (s : ifstream) (u : Locals) (hgood : s.fail = false)
    (hlen : 6 ≤ s.rest.length) :
    ReadEntry s u = (s.advance 6, entryAt s.rest 0) := by
  unfold ReadEntry
  simp only []
  rw [ReadWord_ok s _ hgood (by omega)]
  simp only []
  rw [ReadWord_ok (s.advance 2) _ rfl (by simp; omega)]
  simp only []
  rw [ReadWord_ok ((s.advance 2).advance 2) _ rfl (by simp; omega)]
  simp only [advance_advance, advance_rest, wordAt_drop, List.drop_drop]
  rw [or_words_eq _ _ _ (wordAt_lt _ _) (wordAt_lt _ _) (wordAt_lt _ _)]
  rfl

theorem entryAt_entryBytes (v : Nat) (hv : v < 2 ^ 48) (tail : List Byte) :
    entryAt (entryBytes v ++ tail) 0 = v := by
  simp only [entryAt, wordAt, byteAt, entryBytes, toByte, List.cons_append,
    List.getD_cons_zero, List.getD_cons_succ, Nat.shiftRight_eq_div_pow]
  omega

/-! ## The event word -/

theorem splitEvent_fields (w : Nat) (hw : w < 2 ^ 48) (header : Header) :
    splitEvent w header =
      { eventID := w / 2 ^ 47, amp := w / 2 ^ 39 % 2 ^ 8, ypos := w / 2 ^ 29 % 2 ^ 10,
        xpos := w / 2 ^ 19 % 2 ^ 10, eventTS := w % 2 ^ 19,
        time := (w % 2 ^ 19 + header.headerTS) % 2 ^ 64 } := by
  unfold splitEvent
  simp only [mask_eventID_eq, mask_amp_eq, mask_ypos_eq, mask_xpos_eq, mask_time_eq,
    and_mask_shiftRight, Nat.and_pow_two_sub_one_eq_mod]
  have h1 : w / 2 ^ 47 % 2 ^ 1 % 2 ^ 8 = w / 2 ^ 47 := by omega
  have h2 : w / 2 ^ 39 % 2 ^ 8 % 2 ^ 16 = w / 2 ^ 39 % 2 ^ 8 := by omega
  have h3 : w / 2 ^ 29 % 2 ^ 10 % 2 ^ 16 = w / 2 ^ 29 % 2 ^ 10 := by omega
  have h4 : w / 2 ^ 19 % 2 ^ 10 % 2 ^ 16 = w / 2 ^ 19 % 2 ^ 10 := by omega
  have h5 : w % 2 ^ 19 % 2 ^ 32 = w % 2 ^ 19 := by omega
  rw [h1, h2, h3, h4, h5]

theorem splitEvent_unnarrowed (w : Nat) :
    (w &&& mask_eventID) >>> 47 = w / 2 ^ 47 % 2 ^ 1 ∧
    (w &&& mask_amp) >>> 39 = w / 2 ^ 39 % 2 ^ 8 ∧
    (w &&& mask_ypos) >>> 29 = w / 2 ^ 29 % 2 ^ 10 ∧
    (w &&& mask_xpos) >>> 19 = w / 2 ^ 19 % 2 ^ 10 ∧
    w &&& mask_time = w % 2 ^ 19 := by
  simp only [mask_eventID_eq, mask_amp_eq, mask_ypos_eq, mask_xpos_eq, mask_time_eq,
    and_mask_shiftRight, Nat.and_pow_two_sub_one_eq_mod, and_self]

/-- C1: for every 48-bit word `w` that `ReadEntry` returns, `ReadEvent` stores
`eventID = w / 2^47`, `amp = (w / 2^39) mod 2^8`, `ypos = (w / 2^29) mod 2^10`,
`xpos = (w / 2^19) mod 2^10` and `eventTS = w mod 2^19`; each stored field
equals the value of its mask-and-shift expression before narrowing, so the
narrowing into the `uint8`/`uint16`/`uint32` field truncates nothing. -/
theorem C1_ReadEvent_bit_layout (infile : ifstream) (header : Header) (u : Locals)
    (w : Nat) (hw : w < 2 ^ 48) (hread : (ReadEntry infile u).2 = w) :
    (ReadEvent infile header u).2.eventID = w / 2 ^ 47 ∧
    (ReadEvent infile header u).2.amp = w / 2 ^ 39 % 2 ^ 8 ∧
    (ReadEvent infile header u).2.ypos = w / 2 ^ 29 % 2 ^ 10 ∧
    (ReadEvent infile header u).2.xpos = w / 2 ^ 19 % 2 ^ 10 ∧
    (ReadEvent infile header u).2.eventTS = w % 2 ^ 19 ∧
    (ReadEvent infile header u).2.eventID = (w &&& mask_eventID) >>> 47 ∧
    (ReadEvent infile header u).2.amp = (w &&& mask_amp) >>> 39 ∧
    (ReadEvent infile header u).2.ypos = (w &&& mask_ypos) >>> 29 ∧
    (ReadEvent infile header u).2.xpos = (w &&& mask_xpos) >>> 19 ∧
    (ReadEvent infile header u).2.eventTS = w &&& mask_time := by
  obtain ⟨e1, e2, e3, e4, e5⟩ := splitEvent_unnarrowed w
  have hev : (ReadEvent infile header u).2 = splitEvent w header := by
    simp [ReadEvent, hread]
  rw [hev, splitEvent_fields w hw header, e1, e2, e3, e4, e5]
  refine ⟨rfl, rfl, rfl, rfl, rfl, ?_, rfl, rfl, rfl, rfl⟩
  show w / 2 ^ 47 = w / 2 ^ 47 % 2 ^ 1
  omega

theorem C1_ReadEvent_bit_layout_witness :
    (0xFEDCBA987654 : Nat) < 2 ^ 48 ∧
    (ReadEntry (ifstream.open (entryBytes 0xFEDCBA987654)) locals0).2 = 0xFEDCBA987654 ∧
    (ReadEvent (ifstream.open (entryBytes 0xFEDCBA987654)) header0 locals0).2.eventID = 1 ∧
    (ReadEvent (ifstream.open (entryBytes 0xFEDCBA987654)) header0 locals0).2.amp = 253 ∧
    (ReadEvent (ifstream.open (entryBytes 0xFEDCBA987654)) header0 locals0).2.ypos = 741 ∧
    (ReadEvent (ifstream.open (entryBytes 0xFEDCBA987654)) header0 locals0).2.xpos = 851 ∧
    (ReadEvent (ifstream.open (entryBytes 0xFEDCBA987654)) header0 locals0).2.eventTS
      = 30292 :=
  have h := C1_ReadEvent_bit_layout (ifstream.open (entryBytes 0xFEDCBA987654)) header0
    locals0 0xFEDCBA987654 (by decide) (by decide)
  ⟨by decide, by decide, h.1, h.2.1, h.2.2.1, h.2.2.2.1, h.2.2.2.2.1⟩

/-- C2: packing then decoding is the identity on the fields.  For
`eventKind` in {0, 1}, `amplitude < 2^7`, `yPos < 2^10`, `xPos < 2^10` and
`bufferRelativeTime < 2^19`, when `ReadEntry` returns the word
`eventKind*2^47 + amplitude*2^39 + yPos*2^29 + xPos*2^19 + bufferRelativeTime`,
`ReadEvent` stores exactly those five values. -/
theorem C2_pack_then_decode (infile : ifstream) (header : Header) (u : Locals)
    (eventKind amplitude yPos xPos bufferRelativeTime : Nat)
    (hk : eventKind ≤ 1) (ha : amplitude < 2 ^ 7) (hy : yPos < 2 ^ 10)
    (hx : xPos < 2 ^ 10) (ht : bufferRelativeTime < 2 ^ 19)
    (hread : (ReadEntry infile u).2
      = packEvent eventKind amplitude yPos xPos bufferRelativeTime) :
    (ReadEvent infile header u).2.eventID = eventKind ∧
    (ReadEvent infile header u).2.amp = amplitude ∧
    (ReadEvent infile header u).2.ypos = yPos ∧
    (ReadEvent infile header u).2.xpos = xPos ∧
    (ReadEvent infile header u).2.eventTS = bufferRelativeTime := by
  have hw : packEvent eventKind amplitude yPos xPos bufferRelativeTime < 2 ^ 48 := by
    unfold packEvent; omega
  have hev : (ReadEvent infile header u).2
      = splitEvent (packEvent eventKind amplitude yPos xPos bufferRelativeTime) header := by
    simp [ReadEvent, hread]
  rw [hev, splitEvent_fields _ hw header]
  simp only [packEvent]
  refine ⟨?_, ?_, ?_, ?_, ?_⟩ <;> omega

theorem C2_pack_then_decode_witness :
    ((0 : Nat) ≤ 1 ∧ (3 : Nat) < 2 ^ 7 ∧ (7 : Nat) < 2 ^ 10 ∧ (5 : Nat) < 2 ^ 10 ∧
      (100 : Nat) < 2 ^ 19 ∧
      (ReadEntry (ifstream.open (entryBytes (packEvent 0 3 7 5 100))) locals0).2
        = packEvent 0 3 7 5 100 ∧
      (ReadEvent (ifstream.open (entryBytes (packEvent 0 3 7 5 100))) header0 locals0).2
        = { eventID := 0, amp := 3, ypos := 7, xpos := 5, eventTS := 100, time := 100 }) ∧
    ((1 : Nat) ≤ 1 ∧ packEvent 1 0 0 0 0 = 2 ^ 47 ∧
      (ReadEntry (ifstream.open (entryBytes (2 ^ 47))) locals0).2 = packEvent 1 0 0 0 0 ∧
      (ReadEvent (ifstream.open (entryBytes (2 ^ 47))) header0 locals0).2.eventID = 1 ∧
      (ReadEvent (ifstream.open (entryBytes (2 ^ 47))) header0 locals0).2.amp = 0 ∧
      (ReadEvent (ifstream.open (entryBytes (2 ^ 47))) header0 locals0).2.ypos = 0 ∧
      (ReadEvent (ifstream.open (entryBytes (2 ^ 47))) header0 locals0).2.xpos = 0 ∧
      (ReadEvent (ifstream.open (entryBytes (2 ^ 47))) header0 locals0).2.eventTS = 0) :=
  have h1 := C2_pack_then_decode (ifstream.open (entryBytes (packEvent 0 3 7 5 100)))
    header0 locals0 0 3 7 5 100 (by decide) (by decide) (by decide) (by decide)
    (by decide) (by decide)
  have h2 := C2_pack_then_decode (ifstream.open (entryBytes (2 ^ 47)))
    header0 locals0 1 0 0 0 0 (by decide) (by decide) (by decide) (by decide)
    (by decide) (by decide)
  ⟨⟨by decide, by decide, by decide, by decide, by decide, by decide, by decide⟩,
   ⟨by decide, by decide, by decide, h2.1, h2.2.1, h2.2.2.1, h2.2.2.2.1, h2.2.2.2.2⟩⟩

/-- C3: when the header timestamp is a value produced by `ReadEntry` (so at
most `2^48 - 1`), the absolute time stored by `ReadEvent` is the exact sum
`eventTS + headerTS`: the sum is below `2^48 + 2^19`, hence below `2^64`,
and the 64-bit addition does not wrap. -/
theorem C3_absolute_time_exact (s0 : ifstream) (u0 : Locals) (infile : ifstream)
    (header : Header) (u : Locals) (hTS : header.headerTS = (ReadEntry s0 u0).2) :
    (ReadEvent infile header u).2.time
      = (ReadEvent infile header u).2.eventTS + header.headerTS ∧
    (ReadEvent infile header u).2.eventTS < 2 ^ 19 ∧
    header.headerTS ≤ 2 ^ 48 - 1 ∧
    (ReadEvent infile header u).2.eventTS + header.headerTS < 2 ^ 48 + 2 ^ 19 ∧
    (ReadEvent infile header u).2.eventTS + header.headerTS < 2 ^ 64 := by
  have h1 : header.headerTS < 2 ^ 48 := hTS ▸ ReadEntry_lt s0 u0
  have h2 := ReadEntry_lt infile u
  have hev : (ReadEvent infile header u).2 = splitEvent (ReadEntry infile u).2 header := rfl
  rw [hev, splitEvent_fields _ h2 header]
  simp only []
  omega

theorem C3_absolute_time_exact_witness :
    ({ header0 with headerTS := 2 ^ 48 - 1 } : Header).headerTS
      = (ReadEntry (ifstream.open (entryBytes (2 ^ 48 - 1))) locals0).2 ∧
    (ReadEvent (ifstream.open (entryBytes (2 ^ 19 - 1)))
      { header0 with headerTS := 2 ^ 48 - 1 } locals0).2.time
      = (2 ^ 19 - 1) + (2 ^ 48 - 1) :=
  have h := C3_absolute_time_exact (ifstream.open (entryBytes (2 ^ 48 - 1))) locals0
    (ifstream.open (entryBytes (2 ^ 19 - 1))) { header0 with headerTS := 2 ^ 48 - 1 }
    locals0 (by decide)
  ⟨by decide, h.1⟩

/-! ## Reads at an offset of a good stream -/

theorem advance_zero (s : ifstream) (hgood : s.fail = false) : s.advance 0 = s := by
  obtain ⟨rest, pos, fail⟩ := s
  simp only at hgood
  simp [ifstream.advance, hgood]

theorem ReadWord_adv (s : ifstream) (n word : Nat) (hlen : n + 2 ≤ s.rest.length) :
    ReadWord (s.advance n) word = (s.advance (n + 2), wordAt s.rest n) := by
  rw [ReadWord_ok (s.advance n) word rfl (by simp; omega), advance_advance]
  simp [wordAt_drop]

theorem ReadByte_adv (s : ifstream) (n byte : Nat) (hlen : n + 1 ≤ s.rest.length) :
    ReadByte (s.advance n) byte = (s.advance (n + 1), byteAt s.rest n) := by
  rw [ReadByte_ok (s.advance n) byte rfl (by simp; omega), advance_advance]
  simp [byteAt_drop]

theorem ReadEntry_adv (s : ifstream) (n : Nat) (u : Locals) (hlen : n + 6 ≤ s.rest.length) :
    ReadEntry (s.advance n) u = (s.advance (n + 6), entryAt s.rest n) := by
  rw [ReadEntry_ok (s.advance n) u rfl (by simp; omega), advance_advance]
  simp [entryAt_drop]

theorem ReadBufferEnd_adv (s : ifstream) (n : Nat) (hlen : n + 8 ≤ s.rest.length) :
    ReadBufferEnd (s.advance n) = s.advance (n + 8) := by
  unfold ReadBufferEnd
  rw [ReadWord_adv s n 0 (by omega)]
  simp only []
  rw [ReadWord_adv s (n + 2) 0 (by omega)]
  simp only []
  rw [ReadWord_adv s (n + 2 + 2) 0 (by omega)]
  simp only []
  rw [ReadWord_adv s (n + 2 + 2 + 2) 0 (by omega)]

theorem ReadBuffer_stop_adv (s : ifstream) (n : Nat) (header : Header) (u : Nat → Locals)
    (hlen : n + 4 ≤ s.rest.length) (htype : wordAt s.rest (n + 2) ≠ 0x0002) :
    ReadBuffer (s.advance n) header u =
      (s.advance (n + 4),
       { header with bufferlength := wordAt s.rest n, buffertype := wordAt s.rest (n + 2) },
       1) := by
  unfold ReadBuffer
  rw [ReadWord_adv s n _ (by omega)]
  simp only []
  rw [ReadWord_adv s (n + 2) _ (by omega)]
  simp only []
  rw [if_pos htype]

theorem ReadBuffer_adv (s : ifstream) (n : Nat) (header : Header) (u : Nat → Locals)
    (hlen : n + 42 ≤ s.rest.length) (htype : wordAt s.rest (n + 2) = 0x0002) :
    ReadBuffer (s.advance n) header u = (s.advance (n + 42), headerAt (s.rest.drop n), 0) := by
  unfold ReadBuffer
  rw [ReadWord_adv s n _ (by omega)]
  simp only []
  rw [ReadWord_adv s (n + 2) _ (by omega)]
  simp only []
  rw [if_neg (not_not.mpr htype)]
  rw [ReadWord_adv s (n + 2 + 2) _ (by omega)]
  simp only []
  rw [ReadWord_adv s (n + 2 + 2 + 2) _ (by omega)]
  simp only []
  rw [ReadWord_adv s (n + 2 + 2 + 2 + 2) _ (by omega)]
  simp only []
  rw [ReadByte_adv s (n + 2 + 2 + 2 + 2 + 2) _ (by omega)]
  simp only []
  rw [ReadByte_adv s (n + 2 + 2 + 2 + 2 + 2 + 1) _ (by omega)]
  simp only []
  rw [ReadEntry_adv s (n + 2 + 2 + 2 + 2 + 2 + 1 + 1) _ (by omega)]
  simp only []
  rw [ReadEntry_adv s (n + 2 + 2 + 2 + 2 + 2 + 1 + 1 + 6) _ (by omega)]
  simp only []
  rw [ReadEntry_adv s (n + 2 + 2 + 2 + 2 + 2 + 1 + 1 + 6 + 6) _ (by omega)]
  simp only []
  rw [ReadEntry_adv s (n + 2 + 2 + 2 + 2 + 2 + 1 + 1 + 6 + 6 + 6) _ (by omega)]
  simp only []
  rw [ReadEntry_adv s (n + 2 + 2 + 2 + 2 + 2 + 1 + 1 + 6 + 6 + 6 + 6) _ (by omega)]
  simp only [headerAt, wordAt_drop, byteAt_drop, entryAt_drop, Nat.add_zero, Nat.add_assoc]

theorem ReadBuffer_stop (s : ifstream) (header : Header) (u : Nat → Locals)
    (hgood : s.fail = false) (hlen : 4 ≤ s.rest.length) (htype : wordAt s.rest 2 ≠ 0x0002) :
    ReadBuffer s header u =
      (s.advance 4,
       { header with bufferlength := wordAt s.rest 0, buffertype := wordAt s.rest 2 }, 1) := by
  have h := ReadBuffer_stop_adv s 0 header u (by omega) (by simpa using htype)
  rw [advance_zero s hgood] at h
  simpa using h

theorem ReadBuffer_ok (s : ifstream) (header : Header) (u : Nat → Locals)
    (hgood : s.fail = false) (hlen : 42 ≤ s.rest.length) (htype : wordAt s.rest 2 = 0x0002) :
    ReadBuffer s header u = (s.advance 42, headerAt s.rest, 0) := by
  have h := ReadBuffer_adv s 0 header u (by omega) (by simpa using htype)
  rw [advance_zero s hgood] at h
  simpa using h

/-! ## The event loop -/

theorem eventLoop_header (n : Nat) (st : State) (u : Nat → Locals) :
    (eventLoop n st u).header = st.header := by
  induction n generalizing st u with
  | zero => rfl
  | succ n ih => rw [eventLoop, ih]; rfl

theorem eventLoop_buffer_num (n : Nat) (st : State) (u : Nat → Locals) :
    (eventLoop n st u).buffer_num = st.buffer_num := by
  induction n generalizing st u with
  | zero => rfl
  | succ n ih => rw [eventLoop, ih]; rfl

theorem eventLoop_rawdata_length (n : Nat) (st : State) (u : Nat → Locals) :
    (eventLoop n st u).rawdata.length = st.rawdata.length + n := by
  induction n generalizing st u with
  | zero => rfl
  | succ n ih =>
    rw [eventLoop, ih]
    simp [eventBody]
    omega

theorem eventLoop_entry_num (n : Nat) (st : State) (u : Nat → Locals)
    (h : st.entry_num < 2 ^ 64) :
    (eventLoop n st u).entry_num = (st.entry_num + n) % 2 ^ 64 := by
  induction n generalizing st u with
  | zero => simp only [eventLoop, Nat.add_zero]; omega
  | succ n ih =>
    rw [eventLoop, ih _ _ (Nat.mod_lt _ (by decide))]
    simp only [eventBody]
    omega

theorem eventLoop_adv (n : Nat) (st : State) (u : Nat → Locals) (s : ifstream) (k : Nat)
    (hin : st.infile = s.advance k) (hlen : k + 6 * n ≤ s.rest.length) :
    (eventLoop n st u).infile = s.advance (k + 6 * n) ∧
    (eventLoop n st u).rawdata = st.rawdata ++ (List.range n).map
      (fun i => Fill st.header (splitEvent (entryAt s.rest (k + 6 * i)) st.header)) := by
  induction n generalizing st u k with
  | zero => simp [eventLoop, hin]
  | succ n ih =>
    have hbody : (eventBody st (u 0)).infile = s.advance (k + 6) := by
      simp only [eventBody, ReadEvent, hin]
      rw [ReadEntry_adv s k _ (by omega)]
    have hraw : (eventBody st (u 0)).rawdata
        = st.rawdata ++ [Fill st.header (splitEvent (entryAt s.rest k) st.header)] := by
      simp only [eventBody, ReadEvent, hin]
      rw [ReadEntry_adv s k _ (by omega)]
    have hhead : (eventBody st (u 0)).header = st.header := rfl
    obtain ⟨h1, h2⟩ := ih (eventBody st (u 0)) (fun i => u (i + 1)) (k + 6) hbody (by omega)
    rw [eventLoop]
    refine ⟨?_, ?_⟩
    · rw [h1]; congr 1; omega
    · have hfun : (fun i => Fill st.header (splitEvent (entryAt s.rest (k + 6 + 6 * i)) st.header))
          = (fun i => Fill st.header (splitEvent (entryAt s.rest (k + 6 * (i + 1))) st.header)) := by
        funext i
        rw [show k + 6 + 6 * i = k + 6 * (i + 1) by omega]
      rw [h2, hraw, hhead, hfun, List.range_succ_eq_map, List.map_cons, List.map_map,
        List.append_assoc]
      rfl

theorem buffer_entries_eq (header : Header) (N : Nat)
    (h : header.bufferlength = 21 + 3 * N) : (buffer_entries header).toNat = N := by
  unfold buffer_entries
  rw [h]
  have h2 : (((21 + 3 * N : Nat) : Int) - 21) = 3 * (N : Int) := by push_cast; ring
  rw [h2, Int.mul_tdiv_cancel_left _ (by decide)]
  simp

theorem Fill_headerAt (bs : List Byte) (w : Nat) (hw : w < 2 ^ 48) :
    Fill (headerAt bs) (splitEvent w (headerAt bs)) = decodeRecord bs w := by
  rw [splitEvent_fields w hw]
  have h := entryAt_lt bs 12
  have h2 : (w % 2 ^ 19 + entryAt bs 12) % 2 ^ 64 = w % 2 ^ 19 + entryAt bs 12 := by omega
  simp only [Fill, headerAt, decodeRecord, h2]

/-! ## One pass of the buffer loop -/

theorem bufferBody_ok (N : Nat) (st : State) (u : Nat → Locals)
    (hgood : st.infile.fail = false) (htype : wordAt st.infile.rest 2 = 0x0002)
    (hlen : wordAt st.infile.rest 0 = 21 + 3 * N)
    (havail : 42 + 6 * N + 8 ≤ st.infile.rest.length) :
    (bufferBody st u).2 = false ∧
    (bufferBody st u).1.infile = st.infile.advance (42 + 6 * N + 8) ∧
    (bufferBody st u).1.header = headerAt st.infile.rest ∧
    (bufferBody st u).1.rawdata = st.rawdata ++ (List.range N).map
      (fun i => decodeRecord st.infile.rest (entryAt st.infile.rest (42 + 6 * i))) ∧
    (bufferBody st u).1.buffer_num = (st.buffer_num + 1) % 2 ^ 64 ∧
    (st.entry_num < 2 ^ 64 →
      (bufferBody st u).1.entry_num = (st.entry_num + N) % 2 ^ 64) := by
  have hrb := ReadBuffer_ok st.infile st.header u hgood (by omega) htype
  have hbe : (buffer_entries (headerAt st.infile.rest)).toNat = N :=
    buffer_entries_eq _ N hlen
  obtain ⟨h1, h2⟩ := eventLoop_adv N
    { st with infile := st.infile.advance 42, header := headerAt st.infile.rest,
              buffer_num := (st.buffer_num + 1) % 2 ^ 64 }
    (fun i => u (5 + i)) st.infile 42 rfl (by omega)
  have hpad := ReadBufferEnd_adv st.infile (42 + 6 * N) (by omega)
  have hfill : (fun i => Fill (headerAt st.infile.rest)
        (splitEvent (entryAt st.infile.rest (42 + 6 * i)) (headerAt st.infile.rest)))
      = (fun i => decodeRecord st.infile.rest (entryAt st.infile.rest (42 + 6 * i))) := by
    funext i
    exact Fill_headerAt _ _ (entryAt_lt _ _)
  simp only [hfill] at h2
  simp only [bufferBody, hrb, hbe, Nat.zero_ne_one, if_false, h1, hpad, h2,
    eventLoop_header, eventLoop_buffer_num, true_and]
  intro he
  exact eventLoop_entry_num _ _ _ he

/-- C4: when the driver processes a buffer whose header has `bufferType =
0x0002` and `bufferLength = 21 + 3*N`, with at least `42 + 6*N + 8` bytes
available, the pass does not break, appends exactly `N` records (one `Fill`
per event word, the `i`-th decoded from the six bytes at offset `42 + 6*i`),
the event loop leaves the cursor `42 + 6*N` bytes on, `ReadBufferEnd` consumes
exactly 8 more bytes, so the cursor advances by exactly `42 + 6*N + 8` bytes,
and the next pass of the loop reads its header from there. -/
theorem C4_buffer_yields_N_events (N : Nat) (hN : 21 + 3 * N ≤ 65535) (st : State)
    (u : Nat → Locals) (hgood : st.infile.fail = false)
    (htype : wordAt st.infile.rest 2 = 0x0002)
    (hlen : wordAt st.infile.rest 0 = 21 + 3 * N)
    (havail : 42 + 6 * N + 8 ≤ st.infile.rest.length) :
    (bufferBody st u).2 = false ∧
    (bufferBody st u).1.rawdata = st.rawdata ++ (List.range N).map
      (fun i => decodeRecord st.infile.rest (entryAt st.infile.rest (42 + 6 * i))) ∧
    (bufferBody st u).1.rawdata.length = st.rawdata.length + N ∧
    (bufferBody st u).1.infile = ReadBufferEnd (st.infile.advance (42 + 6 * N)) ∧
    ReadBufferEnd (st.infile.advance (42 + 6 * N)) = st.infile.advance (42 + 6 * N + 8) ∧
    (bufferBody st u).1.infile.pos = st.infile.pos + (42 + 6 * N + 8) ∧
    (bufferBody st u).1.infile.rest = st.infile.rest.drop (42 + 6 * N + 8) ∧
    (bufferBody st u).1.infile.fail = false ∧
    (∀ (fuel : Nat) (U : Nat → Nat → Locals), U 0 = u →
      bufferLoop (fuel + 1) st U
        = bufferLoop fuel (bufferBody st u).1 (fun b => U (b + 1))) := by
  have _ := hN
  obtain ⟨h1, h2, _, h4, _, _⟩ := bufferBody_ok N st u hgood htype hlen havail
  have hpad := ReadBufferEnd_adv st.infile (42 + 6 * N) (by omega)
  refine ⟨h1, h4, ?_, ?_, hpad, ?_, ?_, ?_, ?_⟩
  · rw [h4]; simp
  · rw [h2, hpad]
  · rw [h2]; rfl
  · rw [h2]; rfl
  · rw [h2]; rfl
  · intro fuel U hU
    subst hU
    rw [bufferLoop]
    simp only [h1, Bool.false_eq_true, if_false]

theorem C4_buffer_yields_N_events_witness :
    (21 + 3 * 1 ≤ 65535 ∧ sampleState.infile.fail = false ∧
      wordAt sampleState.infile.rest 2 = 0x0002 ∧
      wordAt sampleState.infile.rest 0 = 21 + 3 * 1 ∧
      42 + 6 * 1 + 8 ≤ sampleState.infile.rest.length) ∧
    (bufferBody sampleState (fun _ => locals0)).1.rawdata =
      [{ xpos := 5, ypos := 7, amp := 3, time := 1100, eventID := 0, eventTS := 100,
         mcpdID := 1, status := 0, param0 := 11, param1 := 12, param2 := 13,
         param3 := 14 }] ∧
    (bufferBody sampleState (fun _ => locals0)).1.infile.pos = 56 ∧
    (bufferBody sampleState (fun _ => locals0)).1.infile.rest = [] :=
  have h := C4_buffer_yields_N_events 1 (by decide) sampleState (fun _ => locals0)
    (by decide) (by decide) (by decide) (by decide)
  ⟨⟨by decide, by decide, by decide, by decide, by decide⟩, h.2.1, h.2.2.2.2.2.1,
    h.2.2.2.2.2.2.1⟩

/-! ## Buffers that are complete in the file -/

theorem headerAt_append_left (as bs : List Byte) (h : 42 ≤ as.length) :
    headerAt (as ++ bs) = headerAt as := by
  unfold headerAt
  rw [wordAt_append_left as bs 0 (by omega), wordAt_append_left as bs 2 (by omega),
    wordAt_append_left as bs 4 (by omega), wordAt_append_left as bs 6 (by omega),
    wordAt_append_left as bs 8 (by omega), byteAt_append_left as bs 10 (by omega),
    byteAt_append_left as bs 11 (by omega), entryAt_append_left as bs 12 (by omega),
    entryAt_append_left as bs 18 (by omega), entryAt_append_left as bs 24 (by omega),
    entryAt_append_left as bs 30 (by omega), entryAt_append_left as bs 36 (by omega)]

theorem ReadBufferEnd_ok (s : ifstream) (hgood : s.fail = false)
    (hlen : 8 ≤ s.rest.length) : ReadBufferEnd s = s.advance 8 := by
  have h := ReadBufferEnd_adv s 0 (by omega)
  rw [advance_zero s hgood] at h
  simpa using h

theorem eventLoop_wire (events : List (List Byte)) (st : State) (u : Nat → Locals)
    (tail : List Byte) (hsix : ∀ e ∈ events, e.length = 6)
    (hgood : st.infile.fail = false) (hrest : st.infile.rest = events.flatten ++ tail) :
    (eventLoop events.length st u).infile
      = { rest := tail, pos := st.infile.pos + 6 * events.length, fail := false } ∧
    (eventLoop events.length st u).rawdata = st.rawdata ++ events.map
      (fun e => Fill st.header (splitEvent (entryAt e 0) st.header)) := by
  induction events generalizing st u with
  | nil =>
    obtain ⟨⟨rest, pos, fail⟩, header, event, rawdata, bn, en⟩ := st
    simp only at hgood hrest
    simp [eventLoop, hgood, hrest]
  | cons e es ih =>
    have he : e.length = 6 := hsix e (List.mem_cons_self _ _)
    have hrest2 : st.infile.rest = e ++ (es.flatten ++ tail) := by
      rw [hrest, List.flatten_cons, List.append_assoc]
    have hread : ReadEntry st.infile (u 0) = (st.infile.advance 6, entryAt e 0) := by
      rw [ReadEntry_ok st.infile (u 0) hgood (by rw [hrest2, List.length_append]; omega),
        hrest2, entryAt_append_left e _ 0 (by omega)]
    have hin : (eventBody st (u 0)).infile = st.infile.advance 6 := by
      simp only [eventBody, ReadEvent, hread]
    have hraw : (eventBody st (u 0)).rawdata
        = st.rawdata ++ [Fill st.header (splitEvent (entryAt e 0) st.header)] := by
      simp only [eventBody, ReadEvent, hread]
    have hhead : (eventBody st (u 0)).header = st.header := rfl
    obtain ⟨h1, h2⟩ := ih (eventBody st (u 0)) (fun i => u (i + 1))
      (fun x hx => hsix x (List.mem_cons_of_mem _ hx)) (by rw [hin]; rfl)
      (by rw [hin, advance_rest, hrest2, List.drop_left' he])
    rw [List.length_cons, eventLoop]
    refine ⟨?_, ?_⟩
    · rw [h1, hin, advance_pos]
      congr 1
      omega
    · rw [h2, hraw, hhead, List.map_cons, List.append_assoc]
      rfl

theorem bufferBody_wire (b : WireBuffer) (st : State) (u : Nat → Locals)
    (tail : List Byte) (hwf : b.wellFormed) (hgood : st.infile.fail = false)
    (hrest : st.infile.rest = b.bytes ++ tail) :
    (bufferBody st u).2 = false ∧
    (bufferBody st u).1.infile
      = { rest := tail, pos := st.infile.pos + b.bytes.length, fail := false } ∧
    (bufferBody st u).1.rawdata = st.rawdata ++ b.records ∧
    (bufferBody st u).1.buffer_num = (st.buffer_num + 1) % 2 ^ 64 ∧
    (st.entry_num < 2 ^ 64 →
      (bufferBody st u).1.entry_num = (st.entry_num + b.events.length) % 2 ^ 64) := by
  obtain ⟨hhead, htype, hlen, hsix, hpad⟩ := hwf
  have hrest2 : st.infile.rest = b.head ++ (b.events.flatten ++ (b.padding ++ tail)) := by
    rw [hrest, WireBuffer.bytes]; simp only [List.append_assoc]
  have hrb := ReadBuffer_ok st.infile st.header u hgood
    (by rw [hrest2, List.length_append]; omega)
    (by rw [hrest2, wordAt_append_left _ _ 2 (by omega)]; exact htype)
  have hhd : headerAt st.infile.rest = headerAt b.head := by
    rw [hrest2, headerAt_append_left _ _ (by omega)]
  have hbe : (buffer_entries (headerAt b.head)).toNat = b.events.length :=
    buffer_entries_eq _ _ hlen
  obtain ⟨h1, h2⟩ := eventLoop_wire b.events
    { st with infile := st.infile.advance 42, header := headerAt b.head,
              buffer_num := (st.buffer_num + 1) % 2 ^ 64 }
    (fun i => u (5 + i)) (b.padding ++ tail) hsix rfl
    (by simp only [advance_rest]; rw [hrest2, List.drop_left' hhead])
  have hend := ReadBufferEnd_ok _ (h1 ▸ rfl :
      (eventLoop b.events.length
        { st with infile := st.infile.advance 42, header := headerAt b.head,
                  buffer_num := (st.buffer_num + 1) % 2 ^ 64 }
        (fun i => u (5 + i))).infile.fail = false)
    (by rw [h1]; simp only [List.length_append]; omega)
  have hfill : (fun e => Fill (headerAt b.head) (splitEvent (entryAt e 0) (headerAt b.head)))
      = (fun e => decodeRecord b.head (entryAt e 0)) := by
    funext e
    exact Fill_headerAt _ _ (entryAt_lt _ _)
  simp only [hfill] at h2
  have hlenb : b.bytes.length = 42 + 6 * b.events.length + 8 := by
    have hfl : ∀ l : List (List Byte), (∀ e ∈ l, e.length = 6) →
        l.flatten.length = 6 * l.length := by
      intro l
      induction l with
      | nil => intro _; rfl
      | cons x xs ihx =>
        intro hx
        rw [List.flatten_cons, List.length_append, hx x (List.mem_cons_self _ _),
          ihx (fun y hy => hx y (List.mem_cons_of_mem _ hy)), List.length_cons]
        omega
    simp only [WireBuffer.bytes, List.length_append, hhead, hpad, hfl _ hsix]
  simp only [bufferBody, hrb, hhd, hbe, Nat.zero_ne_one, if_false, hend, h2,
    eventLoop_buffer_num, true_and, WireBuffer.records]
  refine ⟨?_, ?_⟩
  · rw [h1, hlenb]
    simp only [ifstream.advance, List.drop_left' hpad, advance_pos]
    congr 1
    omega
  · intro he
    exact eventLoop_entry_num _ _ _ he

/-! ## The buffer loop on a well-formed stream -/

theorem wireRecords_length (bufs : List WireBuffer) :
    (wireRecords bufs).length = wireEvents bufs := by
  induction bufs with
  | nil => rfl
  | cons b bs ih =>
    simp only [wireRecords, wireEvents, List.map_cons, List.flatten_cons,
      List.length_append, List.sum_cons] at ih ⊢
    rw [ih]
    simp [WireBuffer.records]

theorem bufferLoop_wire (bufs : List WireBuffer) (st : State) (u : Nat → Nat → Locals)
    (term : List Byte) (extra : Nat) (hwf : ∀ b ∈ bufs, b.wellFormed)
    (hgood : st.infile.fail = false) (hrest : st.infile.rest = wireBytes bufs ++ term)
    (hterm : 4 ≤ term.length) (htype : wordAt term 2 ≠ 0x0002)
    (hb : st.buffer_num < 2 ^ 64) (he : st.entry_num < 2 ^ 64) :
    ∃ st' : State, bufferLoop (bufs.length + 1 + extra) st u = some st' ∧
      st'.rawdata = st.rawdata ++ wireRecords bufs ∧
      st'.buffer_num = (st.buffer_num + bufs.length) % 2 ^ 64 ∧
      st'.entry_num = (st.entry_num + wireEvents bufs) % 2 ^ 64 ∧
      st'.infile = { rest := term.drop 4,
                     pos := st.infile.pos + (wireBytes bufs).length + 4, fail := false } := by
  induction bufs generalizing st u with
  | nil =>
    simp only [wireBytes, List.map_nil, List.flatten_nil, List.nil_append] at hrest
    have hrb := ReadBuffer_stop st.infile st.header (u 0) hgood (by rw [hrest]; exact hterm)
      (by rw [hrest]; exact htype)
    have hbody : bufferBody st (u 0)
        = ({ st with infile := st.infile.advance 4,
                     header := { st.header with bufferlength := wordAt st.infile.rest 0,
                                                buffertype := wordAt st.infile.rest 2 } },
           true) := by
      simp only [bufferBody, hrb, if_true]
    refine ⟨(bufferBody st (u 0)).1, ?_, ?_, ?_, ?_, ?_⟩
    · rw [show ([] : List WireBuffer).length + 1 + extra = extra + 1 by
        simp only [List.length_nil]; omega, bufferLoop]
      simp only [hbody, if_true]
    · simp [hbody, wireRecords]
    · simp only [hbody, List.length_nil, Nat.add_zero]; omega
    · simp only [hbody, wireEvents, List.map_nil, List.sum_nil, Nat.add_zero]; omega
    · simp [hbody, ifstream.advance, hrest, wireBytes]
  | cons b bs ih =>
    have hrest2 : st.infile.rest = b.bytes ++ (wireBytes bs ++ term) := by
      rw [hrest]; simp [wireBytes]
    obtain ⟨h1, h2, h3, h4, h5⟩ := bufferBody_wire b st (u 0) (wireBytes bs ++ term)
      (hwf b (List.mem_cons_self _ _)) hgood hrest2
    obtain ⟨st', k1, k2, k3, k4, k5⟩ := ih (bufferBody st (u 0)).1 (fun i => u (i + 1))
      (fun x hx => hwf x (List.mem_cons_of_mem _ hx)) (by rw [h2]) (by rw [h2])
      (by rw [h4]; exact Nat.mod_lt _ (by decide))
      (by rw [h5 he]; exact Nat.mod_lt _ (by decide))
    refine ⟨st', ?_, ?_, ?_, ?_, ?_⟩
    · rw [show (b :: bs).length + 1 + extra = (bs.length + 1 + extra) + 1 by
        simp only [List.length_cons]; omega, bufferLoop]
      simp only [h1, Bool.false_eq_true, if_false]
      exact k1
    · rw [k2, h3]; simp [wireRecords]
    · rw [k3, h4, List.length_cons]; omega
    · rw [k4, h5 he]
      simp only [wireEvents, List.map_cons, List.sum_cons]
      omega
    · rw [k5, h2]
      simp only [wireBytes, List.map_cons, List.flatten_cons, List.length_append]
      congr 1
      omega

/-- C5: on an input made of a 58-byte preamble, then any number of complete
well-formed buffers, then a header whose type word is not `0x0002`, the driver
returns (any bound above the number of buffers is enough) and the records it
handed to the tree are exactly the decodings of the event words of the
buffers, buffer after buffer and word after word: their number is the sum of
the `N_i`, and the two counters hold the number of buffers and of events. -/
theorem C5_records_in_stream_order (preamble : List Byte) (bufs : List WireBuffer)
    (term : List Byte) (header : Header) (event : Event) (u : Nat → Nat → Locals)
    (extra : Nat) (hpre : preamble.length = 58) (hwf : ∀ b ∈ bufs, b.wellFormed)
    (hterm : 4 ≤ term.length) (htype : wordAt term 2 ≠ 0x0002) :
    ∃ st : State,
      mdat_conv (bufs.length + 1 + extra) (preamble ++ wireBytes bufs ++ term)
        header event u = some st ∧
      st.rawdata = wireRecords bufs ∧
      st.rawdata.length = wireEvents bufs ∧
      st.buffer_num = bufs.length % 2 ^ 64 ∧
      st.entry_num = wireEvents bufs % 2 ^ 64 ∧
      st.infile.pos = 58 + (wireBytes bufs).length + 4 := by
  have hread : ReadHeader (ifstream.open (preamble ++ wireBytes bufs ++ term))
      = { rest := wireBytes bufs ++ term, pos := 58, fail := false } := by
    unfold ReadHeader
    rw [read_ok _ 58 rfl (by simp [ifstream.open, hpre])]
    simp [ifstream.advance, ifstream.open, List.append_assoc, List.drop_left' hpre]
  obtain ⟨st', k1, k2, k3, k4, k5⟩ := bufferLoop_wire bufs
    { infile := { rest := wireBytes bufs ++ term, pos := 58, fail := false },
      header := header, event := event, rawdata := [], buffer_num := 0, entry_num := 0 }
    u term extra hwf rfl rfl hterm htype (Nat.two_pow_pos 64) (Nat.two_pow_pos 64)
  refine ⟨st', ?_, ?_, ?_, ?_, ?_, ?_⟩
  · unfold mdat_conv
    rw [hread]
    exact k1
  · simpa using k2
  · rw [k2]; simpa using wireRecords_length bufs
  · simpa using k3
  · simpa using k4
  · rw [k5]

theorem C5_records_in_stream_order_witness :
    (samplePreamble.length = 58 ∧ (∀ b ∈ sampleBuffers, b.wellFormed) ∧
      4 ≤ sampleEnd.length ∧ wordAt sampleEnd 2 ≠ 0x0002) ∧
    wireRecords sampleBuffers =
      [{ xpos := 5, ypos := 7, amp := 3, time := 1100, eventID := 0, eventTS := 100,
         mcpdID := 1, status := 0, param0 := 11, param1 := 12, param2 := 13,
         param3 := 14 },
       { xpos := 0, ypos := 0, amp := 0, time := 2000, eventID := 1, eventTS := 0,
         mcpdID := 1, status := 0, param0 := 11, param1 := 12, param2 := 13,
         param3 := 14 },
       { xpos := 1023, ypos := 1023, amp := 127, time := 526287, eventID := 1,
         eventTS := 524287, mcpdID := 1, status := 0, param0 := 11, param1 := 12,
         param2 := 13, param3 := 14 }] ∧
    ∃ st : State,
      mdat_conv (sampleBuffers.length + 1 + 0)
        (samplePreamble ++ wireBytes sampleBuffers ++ sampleEnd) header0 event0
        (fun _ _ => locals0) = some st ∧
      st.rawdata = wireRecords sampleBuffers ∧
      st.rawdata.length = wireEvents sampleBuffers ∧
      st.buffer_num = sampleBuffers.length % 2 ^ 64 ∧
      st.entry_num = wireEvents sampleBuffers % 2 ^ 64 ∧
      st.infile.pos = 58 + (wireBytes sampleBuffers).length + 4 :=
  ⟨⟨by decide, by decide, by decide, by decide⟩, by decide,
   C5_records_in_stream_order samplePreamble sampleBuffers sampleEnd header0 event0
     (fun _ _ => locals0) 0 (by decide) (by decide) (by decide) (by decide)⟩

/-! ## The buffer header -/

theorem byteAt_take (bs : List Byte) (n i : Nat) (h : i < n) :
    byteAt (bs.take n) i = byteAt bs i := by
  simp [byteAt, List.getElem?_take, h]

theorem entryAt_take_drop (bs : List Byte) (k : Nat) :
    entryAt ((bs.drop k).take 6) 0 = entryAt bs k := by
  simp only [entryAt, wordAt, Nat.zero_add]
  rw [byteAt_take _ 6 0 (by omega), byteAt_take _ 6 1 (by omega),
    byteAt_take _ 6 2 (by omega), byteAt_take _ 6 (2 + 1) (by omega),
    byteAt_take _ 6 4 (by omega), byteAt_take _ 6 (4 + 1) (by omega)]
  simp only [byteAt_drop, Nat.add_zero, Nat.add_assoc]

theorem ReadEntry_slice (bs : List Byte) (k : Nat) (v : Locals) (h : k + 6 ≤ bs.length) :
    (ReadEntry (ifstream.open ((bs.drop k).take 6)) v).2 = entryAt bs k := by
  rw [ReadEntry_ok _ v rfl (by simp [ifstream.open, List.length_take]; omega)]
  exact entryAt_take_drop bs k

theorem ReadBuffer_type_ok (s : ifstream) (header : Header) (u : Nat → Locals)
    (hgood : s.fail = false) (hlen : 4 ≤ s.rest.length) (htype : wordAt s.rest 2 = 0x0002) :
    (ReadBuffer s header u).2.2 = 0 := by
  have h1 := ReadWord_adv s 0 header.bufferlength (by omega)
  have h2 := ReadWord_adv s (0 + 2) header.buffertype (by omega)
  rw [advance_zero s hgood] at h1
  unfold ReadBuffer
  simp only [h1, h2, Nat.zero_add]
  rw [if_neg (not_not.mpr htype)]

/-- C6: when the next 42 bytes `b` of a good stream have `b[2]*256 + b[3] =
0x0002`, `ReadBuffer` returns 0, consumes exactly those 42 bytes and fills the
header in the fixed order: `bufferlength`, `buffertype`, `headerlength`,
`buffernumber`, `runID` from the byte pairs at 0, 2, 4, 6, 8 (first byte most
significant), `mcpdID = b[10]`, `status = b[11]`, and `headerTS`, `param0`,
`param1`, `param2`, `param3` as what `ReadEntry` returns on `b[12..17]`,
`b[18..23]`, `b[24..29]`, `b[30..35]`, `b[36..41]`. -/
theorem C6_ReadBuffer_fills_header (b tail : List Byte) (infile : ifstream)
    (header : Header) (u : Nat → Locals) (v : Locals)
    (hgood : infile.fail = false) (hrest : infile.rest = b ++ tail)
    (hb : b.length = 42) (htype : byteAt b 2 * 256 + byteAt b 3 = 0x0002) :
    (ReadBuffer infile header u).2.2 = 0 ∧
    (ReadBuffer infile header u).1
      = { rest := tail, pos := infile.pos + 42, fail := false } ∧
    (ReadBuffer infile header u).2.1 =
      { bufferlength := byteAt b 0 * 256 + byteAt b 1,
        buffertype := byteAt b 2 * 256 + byteAt b 3,
        headerlength := byteAt b 4 * 256 + byteAt b 5,
        buffernumber := byteAt b 6 * 256 + byteAt b 7,
        runID := byteAt b 8 * 256 + byteAt b 9,
        mcpdID := byteAt b 10,
        status := byteAt b 11,
        headerTS := (ReadEntry (ifstream.open ((b.drop 12).take 6)) v).2,
        param0 := (ReadEntry (ifstream.open ((b.drop 18).take 6)) v).2,
        param1 := (ReadEntry (ifstream.open ((b.drop 24).take 6)) v).2,
        param2 := (ReadEntry (ifstream.open ((b.drop 30).take 6)) v).2,
        param3 := (ReadEntry (ifstream.open ((b.drop 36).take 6)) v).2 } := by
  have hrb := ReadBuffer_ok infile header u hgood
    (by rw [hrest, List.length_append]; omega)
    (by rw [hrest, wordAt_append_left _ _ 2 (by omega)]; exact htype)
  rw [hrb, ReadEntry_slice b 12 v (by omega), ReadEntry_slice b 18 v (by omega),
    ReadEntry_slice b 24 v (by omega), ReadEntry_slice b 30 v (by omega),
    ReadEntry_slice b 36 v (by omega)]
  refine ⟨rfl, ?_, ?_⟩
  · simp only [ifstream.advance, hrest, List.drop_left' hb]
  · simp only [hrest, headerAt_append_left b tail (by omega)]
    rfl

theorem C6_ReadBuffer_fills_header_witness :
    ((ifstream.open sampleBuffer).fail = false ∧
      (ifstream.open sampleBuffer).rest
        = sampleHead 1 7 1000 ++ (entryBytes (packEvent 0 3 7 5 100) ++ List.replicate 8 0) ∧
      (sampleHead 1 7 1000).length = 42 ∧
      byteAt (sampleHead 1 7 1000) 2 * 256 + byteAt (sampleHead 1 7 1000) 3 = 0x0002) ∧
    (ReadBuffer (ifstream.open sampleBuffer) header0 (fun _ => locals0)).2.2 = 0 ∧
    (ReadBuffer (ifstream.open sampleBuffer) header0 (fun _ => locals0)).1.pos = 42 ∧
    (ReadBuffer (ifstream.open sampleBuffer) header0 (fun _ => locals0)).2.1 =
      { bufferlength := 24, buffertype := 2, headerlength := 21, buffernumber := 7,
        runID := 9, mcpdID := 1, status := 0, headerTS := 1000, param0 := 11,
        param1 := 12, param2 := 13, param3 := 14 } :=
  have h := C6_ReadBuffer_fills_header (sampleHead 1 7 1000)
    (entryBytes (packEvent 0 3 7 5 100) ++ List.replicate 8 0) (ifstream.open sampleBuffer)
    header0 (fun _ => locals0) locals0 (by decide) (by decide) (by decide) (by decide)
  ⟨⟨by decide, by decide, by decide, by decide⟩, h.1, congrArg ifstream.pos h.2.1,
    h.2.2.trans (by decide)⟩

/-- C7: on a good stream with at least 4 bytes left, `ReadBuffer` returns 1 if
and only if the second word read, after the byte swap, differs from `0x0002`
(otherwise it returns 0); and whenever it returns 1 it has consumed exactly 4
bytes, the length word and the type word, and nothing after them. -/
theorem C7_ReadBuffer_end_of_stream (infile : ifstream) (header : Header)
    (u : Nat → Locals) (hgood : infile.fail = false) (hlen : 4 ≤ infile.rest.length) :
    (ReadWord (ReadWord infile header.bufferlength).1 header.buffertype).2
      = wordAt infile.rest 2 ∧
    ((ReadBuffer infile header u).2.2 = 1 ↔ wordAt infile.rest 2 ≠ 0x0002) ∧
    ((ReadBuffer infile header u).2.2 = 0 ↔ wordAt infile.rest 2 = 0x0002) ∧
    ((ReadBuffer infile header u).2.2 = 1 →
      (ReadBuffer infile header u).1.pos = infile.pos + 4 ∧
      (ReadBuffer infile header u).1.rest = infile.rest.drop 4 ∧
      (ReadBuffer infile header u).1.fail = false) := by
  have hword : (ReadWord (ReadWord infile header.bufferlength).1 header.buffertype).2
      = wordAt infile.rest 2 := by
    rw [ReadWord_ok infile _ hgood (by omega)]
    simp only []
    rw [ReadWord_adv infile 2 _ (by omega)]
  by_cases htype : wordAt infile.rest 2 = 0x0002
  · have h0 := ReadBuffer_type_ok infile header u hgood hlen htype
    refine ⟨hword, ?_, ?_, ?_⟩
    · rw [h0]; simp [htype]
    · rw [h0]; simp [htype]
    · rw [h0]; intro h; exact absurd h (by decide)
  · have h1 := ReadBuffer_stop infile header u hgood hlen htype
    refine ⟨hword, ?_, ?_, ?_⟩
    · rw [h1]; simp [htype]
    · rw [h1]; simp [htype]
    · rw [h1]; intro _; exact ⟨rfl, rfl, rfl⟩

theorem C7_ReadBuffer_end_of_stream_witness :
    ((ifstream.open (sampleEnd ++ sampleBuffer)).fail = false ∧
      4 ≤ (ifstream.open (sampleEnd ++ sampleBuffer)).rest.length) ∧
    (ReadBuffer (ifstream.open (sampleEnd ++ sampleBuffer)) header0
      (fun _ => locals0)).2.2 = 1 ∧
    (ReadBuffer (ifstream.open (sampleEnd ++ sampleBuffer)) header0
      (fun _ => locals0)).1.pos = 4 ∧
    (ReadBuffer (ifstream.open (sampleEnd ++ sampleBuffer)) header0
      (fun _ => locals0)).1.rest = sampleBuffer :=
  have h := C7_ReadBuffer_end_of_stream (ifstream.open (sampleEnd ++ sampleBuffer)) header0
    (fun _ => locals0) (by decide) (by decide)
  have h1 := h.2.1.mpr (by decide)
  ⟨⟨by decide, by decide⟩, h1, (h.2.2.2 h1).1, (h.2.2.2 h1).2.1⟩

/-! ## Words and entries -/

theorem wordAt_entryBytes (v : Nat) (tail : List Byte) :
    wordAt (entryBytes v ++ tail) 0 = v % 2 ^ 16 ∧
    wordAt (entryBytes v ++ tail) 2 = v / 2 ^ 16 % 2 ^ 16 ∧
    wordAt (entryBytes v ++ tail) 4 = v / 2 ^ 32 % 2 ^ 16 := by
  simp only [wordAt, byteAt, entryBytes, toByte, List.cons_append,
    List.getD_cons_zero, List.getD_cons_succ, Nat.shiftRight_eq_div_pow]
  omega

/-- C8: `ReadEntry` round trip.  For `v < 2^48`, when the next six bytes of a
good stream are `(v>>8)&255, v&255, (v>>24)&255, (v>>16)&255, (v>>40)&255,
(v>>32)&255` (the low, middle and high word of `v`, each most significant byte
first), the three `ReadWord` calls return the low, middle and high word,
`ReadEntry` returns `v` and consumes exactly 6 bytes; and on every good stream
with six bytes left `ReadEntry` returns `a | b<<16 | c<<32` for the three
post-swap words `a`, `b`, `c` in the order read. -/
theorem C8_ReadEntry_round_trip (v : Nat) (hv : v < 2 ^ 48) (infile : ifstream)
    (u : Locals) (tail : List Byte) (hgood : infile.fail = false)
    (hrest : infile.rest = entryBytes v ++ tail) :
    ReadEntry infile u = ({ rest := tail, pos := infile.pos + 6, fail := false }, v) ∧
    (ReadWord infile u.low).2 = v % 2 ^ 16 ∧
    (ReadWord (ReadWord infile u.low).1 u.mid).2 = v / 2 ^ 16 % 2 ^ 16 ∧
    (ReadWord (ReadWord (ReadWord infile u.low).1 u.mid).1 u.high).2 = v / 2 ^ 32 ∧
    (∀ (s : ifstream) (w : Locals), s.fail = false → 6 ≤ s.rest.length →
      (ReadEntry s w).1 = s.advance 6 ∧
      (ReadEntry s w).2 =
        (ReadWord s w.low).2 |||
        ((ReadWord (ReadWord s w.low).1 w.mid).2 <<< 16) |||
        ((ReadWord (ReadWord (ReadWord s w.low).1 w.mid).1 w.high).2 <<< 32) ∧
      (ReadEntry s w).2 =
        wordAt s.rest 0 ||| (wordAt s.rest 2 <<< 16) ||| (wordAt s.rest 4 <<< 32)) := by
  have hlen : 6 ≤ infile.rest.length := by
    rw [hrest]; simp [entryBytes]
  obtain ⟨w0, w2, w4⟩ := wordAt_entryBytes v tail
  have hsix : (entryBytes v).length = 6 := rfl
  refine ⟨?_, ?_, ?_, ?_, ?_⟩
  · rw [ReadEntry_ok infile u hgood hlen, hrest, entryAt_entryBytes v hv tail]
    simp only [ifstream.advance, hrest, List.drop_left' hsix]
  · rw [ReadWord_ok infile _ hgood (by omega), hrest, w0]
  · rw [ReadWord_ok infile _ hgood (by omega)]
    simp only []
    rw [ReadWord_adv infile 2 _ (by omega), hrest, w2]
  · rw [ReadWord_ok infile _ hgood (by omega)]
    simp only []
    rw [ReadWord_adv infile 2 _ (by omega)]
    simp only []
    rw [ReadWord_adv infile (2 + 2) _ (by omega), hrest]
    simp only [w4]
    omega
  · intro s w hs hl
    have e1 : ReadWord s w.low = (s.advance 2, wordAt s.rest 0) :=
      ReadWord_ok s _ hs (by omega)
    have e2 : ReadWord (s.advance 2) w.mid = (s.advance (2 + 2), wordAt s.rest 2) :=
      ReadWord_adv s 2 _ (by omega)
    have e3 : ReadWord (s.advance (2 + 2)) w.high
        = (s.advance (2 + 2 + 2), wordAt s.rest (2 + 2)) :=
      ReadWord_adv s (2 + 2) _ (by omega)
    have hmod : (wordAt s.rest 0 ||| (wordAt s.rest 2 <<< 16) ||| (wordAt s.rest 4 <<< 32))
        % 2 ^ 64 = wordAt s.rest 0 ||| (wordAt s.rest 2 <<< 16) ||| (wordAt s.rest 4 <<< 32) := by
      have h0 := wordAt_lt s.rest 0
      have h2 := wordAt_lt s.rest 2
      have h4 := wordAt_lt s.rest 4
      rw [or_shiftLeft_eq_add _ _ 16 h0, or_shiftLeft_eq_add _ _ 32 (by omega)]
      omega
    simp only [ReadEntry, e1, e2, e3, hmod, and_self, true_and]

theorem C8_ReadEntry_round_trip_witness :
    ((0x123456789ABC : Nat) < 2 ^ 48 ∧
      (ifstream.open (entryBytes 0x123456789ABC ++ sampleEnd)).fail = false ∧
      (ifstream.open (entryBytes 0x123456789ABC ++ sampleEnd)).rest
        = entryBytes 0x123456789ABC ++ sampleEnd ∧
      entryBytes 0x123456789ABC = [0x9A, 0xBC, 0x56, 0x78, 0x12, 0x34]) ∧
    ReadEntry (ifstream.open (entryBytes 0x123456789ABC ++ sampleEnd)) locals0
      = ({ rest := sampleEnd, pos := 6, fail := false }, 0x123456789ABC) :=
  ⟨⟨by decide, by decide, by decide, by decide⟩,
   (C8_ReadEntry_round_trip 0x123456789ABC (by decide)
     (ifstream.open (entryBytes 0x123456789ABC ++ sampleEnd)) locals0 sampleEnd
     (by decide) (by decide)).1⟩

/-- C9: when the next two bytes of a good stream are `b0` then `b1`, `ReadWord`
consumes exactly these 2 bytes and yields the big-endian value `b0*256 + b1`:
the raw load on the little-endian host gives `b0 + 256*b1`, and `ByteSwap16`,
which is `(word<<8 | word>>8)` truncated to 16 bits, reverses the two bytes. -/
theorem C9_ReadWord_big_endian (b0 b1 : Byte) (tail : List Byte) (infile : ifstream)
    (word : Nat) (hgood : infile.fail = false) (hrest : infile.rest = b0 :: b1 :: tail) :
    ReadWord infile word
      = ({ rest := tail, pos := infile.pos + 2, fail := false }, b0.val * 256 + b1.val) ∧
    (infile.read 2).2 = [b0, b1] ∧
    loadWord (infile.read 2).2 word = b0.val + 256 * b1.val ∧
    ByteSwap16 (b0.val + 256 * b1.val)
      = (((b0.val + 256 * b1.val) <<< 8) ||| ((b0.val + 256 * b1.val) >>> 8)) % 2 ^ 16 ∧
    ByteSwap16 (b0.val + 256 * b1.val) = b0.val * 256 + b1.val := by
  have hread : (infile.read 2).2 = [b0, b1] := by
    rw [read_ok infile 2 hgood (by rw [hrest]; simp), hrest]
    rfl
  refine ⟨?_, hread, ?_, rfl, ByteSwap16_bytes _ _ b0.isLt b1.isLt⟩
  · rw [ReadWord_ok infile word hgood (by rw [hrest]; simp)]
    simp only [ifstream.advance, hrest, wordAt, byteAt, List.getD_cons_zero,
      List.getD_cons_succ, List.drop_succ_cons, List.drop_zero]
  · rw [hread]; rfl

theorem C9_ReadWord_big_endian_witness :
    ((ifstream.open [0x12, 0x34, 0x56]).fail = false ∧
      (ifstream.open [0x12, 0x34, 0x56]).rest = [0x12, 0x34, 0x56]) ∧
    ReadWord (ifstream.open [0x12, 0x34, 0x56]) 0xFFFF
      = ({ rest := [0x56], pos := 2, fail := false }, 0x1234) :=
  ⟨⟨by decide, by decide⟩,
   (C9_ReadWord_big_endian 0x12 0x34 [0x56] (ifstream.open [0x12, 0x34, 0x56]) 0xFFFF
     (by decide) (by decide)).1⟩

/-- C10: the byte swap is self-inverse: for every 16-bit word `w`,
`ByteSwap16` applied twice returns `w`. -/
theorem C10_ByteSwap16_involution (w : Nat) (hw : w < 2 ^ 16) :
    ByteSwap16 (ByteSwap16 w) = w := by
  have h1 : w = w % 256 + 256 * (w / 256) := by omega
  have h2 : w % 256 * 256 + w / 256 = w / 256 + 256 * (w % 256) := by omega
  have h3 : w / 256 * 256 + w % 256 = w := by omega
  rw [h1, ByteSwap16_bytes _ _ (by omega) (by omega), ← h1, h2,
    ByteSwap16_bytes _ _ (by omega) (by omega), h3]

theorem C10_ByteSwap16_involution_witness :
    (0x12FE : Nat) < 2 ^ 16 ∧ ByteSwap16 0x12FE = 0xFE12 ∧
    ByteSwap16 (ByteSwap16 0x12FE) = 0x12FE :=
  ⟨by decide, by decide, C10_ByteSwap16_involution 0x12FE (by decide)⟩

/-! ## Width of the amplitude and reversibility of the decoding -/

/-- C16 fails as stated: the word `2^46` decodes to the amplitude 128, which is
not below `2^7`. -/
theorem C16_amp_not_seven_bit :
    (2 ^ 46 : Nat) < 2 ^ 48 ∧
    (ReadEntry (ifstream.open (entryBytes (2 ^ 46))) locals0).2 = 2 ^ 46 ∧
    (ReadEvent (ifstream.open (entryBytes (2 ^ 46))) header0 locals0).2.amp = 128 ∧
    ¬ ((ReadEvent (ifstream.open (entryBytes (2 ^ 46))) header0 locals0).2.amp < 2 ^ 7) := by
  decide

/-- C16 as amended: the amplitude produced by `ReadEvent` is an 8-bit
quantity, below `2^8 = 256`, since `mask_amp` covers the eight bits 46..39; it
is below `2^7 = 128` exactly when bit 46 of the event word is 0. -/
theorem C16_amp_eight_bit (infile : ifstream) (header : Header) (u : Locals) :
    (ReadEvent infile header u).2.amp < 2 ^ 8 ∧
    ((ReadEvent infile header u).2.amp < 2 ^ 7 ↔
      (ReadEntry infile u).2 / 2 ^ 46 % 2 = 0) := by
  have hw := ReadEntry_lt infile u
  have hev : (ReadEvent infile header u).2 = splitEvent (ReadEntry infile u).2 header := rfl
  rw [hev, splitEvent_fields _ hw header]
  simp only []
  omega

theorem splitEvent_recompose (w : Nat) (hw : w < 2 ^ 48) (header : Header) :
    (splitEvent w header).eventID * 2 ^ 47 + (splitEvent w header).amp * 2 ^ 39 +
      (splitEvent w header).ypos * 2 ^ 29 + (splitEvent w header).xpos * 2 ^ 19 +
      (splitEvent w header).eventTS = w := by
  rw [splitEvent_fields w hw header]
  simp only []
  omega

/-- C18: the five masks are pairwise disjoint and their union is `2^48 - 1`;
for every word `w < 2^48` that `ReadEntry` returns, the fields stored by
`ReadEvent` satisfy `eventID*2^47 + amp*2^39 + ypos*2^29 + xpos*2^19 + eventTS
= w`, and any read whose five fields agree with them returned the same
word. -/
theorem C18_decoding_loses_nothing (infile : ifstream) (header : Header) (u : Locals)
    (w : Nat) (hw : w < 2 ^ 48) (hread : (ReadEntry infile u).2 = w) :
    (mask_eventID &&& mask_amp = 0 ∧ mask_eventID &&& mask_ypos = 0 ∧
      mask_eventID &&& mask_xpos = 0 ∧ mask_eventID &&& mask_time = 0 ∧
      mask_amp &&& mask_ypos = 0 ∧ mask_amp &&& mask_xpos = 0 ∧
      mask_amp &&& mask_time = 0 ∧ mask_ypos &&& mask_xpos = 0 ∧
      mask_ypos &&& mask_time = 0 ∧ mask_xpos &&& mask_time = 0) ∧
    mask_eventID ||| mask_amp ||| mask_ypos ||| mask_xpos ||| mask_time = 2 ^ 48 - 1 ∧
    (ReadEvent infile header u).2.eventID * 2 ^ 47 +
      (ReadEvent infile header u).2.amp * 2 ^ 39 +
      (ReadEvent infile header u).2.ypos * 2 ^ 29 +
      (ReadEvent infile header u).2.xpos * 2 ^ 19 +
      (ReadEvent infile header u).2.eventTS = w ∧
    (∀ (infile2 : ifstream) (header2 : Header) (u2 : Locals),
      (ReadEvent infile2 header2 u2).2.eventID = (ReadEvent infile header u).2.eventID →
      (ReadEvent infile2 header2 u2).2.amp = (ReadEvent infile header u).2.amp →
      (ReadEvent infile2 header2 u2).2.ypos = (ReadEvent infile header u).2.ypos →
      (ReadEvent infile2 header2 u2).2.xpos = (ReadEvent infile header u).2.xpos →
      (ReadEvent infile2 header2 u2).2.eventTS = (ReadEvent infile header u).2.eventTS →
      (ReadEntry infile2 u2).2 = w) := by
  have hev : (ReadEvent infile header u).2 = splitEvent w header := by
    simp [ReadEvent, hread]
  have hrec := splitEvent_recompose w hw header
  refine ⟨by decide, by decide, ?_, ?_⟩
  · rw [hev]; exact hrec
  · intro infile2 header2 u2 h1 h2 h3 h4 h5
    have hev2 : (ReadEvent infile2 header2 u2).2
        = splitEvent (ReadEntry infile2 u2).2 header2 := rfl
    have hrec2 := splitEvent_recompose (ReadEntry infile2 u2).2 (ReadEntry_lt infile2 u2)
      header2
    rw [← hev2, h1, h2, h3, h4, h5, hev, hrec] at hrec2
    exact hrec2.symm

theorem C18_decoding_loses_nothing_witness :
    ((0xFEDCBA987654 : Nat) < 2 ^ 48 ∧
      (ReadEntry (ifstream.open (entryBytes 0xFEDCBA987654)) locals0).2 = 0xFEDCBA987654) ∧
    (ReadEvent (ifstream.open (entryBytes 0xFEDCBA987654)) header0 locals0).2.eventID
        * 2 ^ 47 +
      (ReadEvent (ifstream.open (entryBytes 0xFEDCBA987654)) header0 locals0).2.amp
        * 2 ^ 39 +
      (ReadEvent (ifstream.open (entryBytes 0xFEDCBA987654)) header0 locals0).2.ypos
        * 2 ^ 29 +
      (ReadEvent (ifstream.open (entryBytes 0xFEDCBA987654)) header0 locals0).2.xpos
        * 2 ^ 19 +
      (ReadEvent (ifstream.open (entryBytes 0xFEDCBA987654)) header0 locals0).2.eventTS
      = 0xFEDCBA987654 :=
  ⟨⟨by decide, by decide⟩,
   (C18_decoding_loses_nothing (ifstream.open (entryBytes 0xFEDCBA987654)) header0 locals0
     0xFEDCBA987654 (by decide) (by decide)).2.2.1⟩

/-! ## What an end-of-stream return leaves untouched -/

theorem ReadBuffer_cases (infile : ifstream) (header : Header) (u : Nat → Locals) :
    ((ReadWord (ReadWord infile header.bufferlength).1 header.buffertype).2 ≠ 0x0002 ∧
      ReadBuffer infile header u =
        ((ReadWord (ReadWord infile header.bufferlength).1 header.buffertype).1,
         { header with
           bufferlength := (ReadWord infile header.bufferlength).2,
           buffertype :=
             (ReadWord (ReadWord infile header.bufferlength).1 header.buffertype).2 },
         1)) ∨
    ((ReadWord (ReadWord infile header.bufferlength).1 header.buffertype).2 = 0x0002 ∧
      (ReadBuffer infile header u).2.2 = 0 ∧
      (ReadBuffer infile header u).2.1.buffertype = 0x0002) := by
  by_cases h : (ReadWord (ReadWord infile header.bufferlength).1 header.buffertype).2 = 0x0002
  · right
    refine ⟨h, ?_, ?_⟩
    · unfold ReadBuffer
      simp only []
      rw [if_neg (not_not.mpr h)]
    · unfold ReadBuffer
      simp only []
      rw [if_neg (not_not.mpr h)]
      exact h
  · left
    refine ⟨h, ?_⟩
    unfold ReadBuffer
    simp only []
    rw [if_pos h]

/-- C19: when `ReadBuffer` returns 1 it has changed only the fields
`bufferlength` and `buffertype` of the global header: `headerlength`,
`buffernumber`, `runID`, `mcpdID`, `status`, `headerTS` and `param0..param3`
keep the values they had before the call; and the pass of the driver that
takes the `break` leaves the global event, the tree and the two counters as
they were. -/
theorem C19_ReadBuffer_stop_frame (infile : ifstream) (header : Header)
    (u : Nat → Locals) (hret : (ReadBuffer infile header u).2.2 = 1) :
    (ReadBuffer infile header u).2.1 =
      { header with
        bufferlength := (ReadBuffer infile header u).2.1.bufferlength,
        buffertype := (ReadBuffer infile header u).2.1.buffertype } ∧
    (ReadBuffer infile header u).2.1.headerlength = header.headerlength ∧
    (ReadBuffer infile header u).2.1.buffernumber = header.buffernumber ∧
    (ReadBuffer infile header u).2.1.runID = header.runID ∧
    (ReadBuffer infile header u).2.1.mcpdID = header.mcpdID ∧
    (ReadBuffer infile header u).2.1.status = header.status ∧
    (ReadBuffer infile header u).2.1.headerTS = header.headerTS ∧
    (ReadBuffer infile header u).2.1.param0 = header.param0 ∧
    (ReadBuffer infile header u).2.1.param1 = header.param1 ∧
    (ReadBuffer infile header u).2.1.param2 = header.param2 ∧
    (ReadBuffer infile header u).2.1.param3 = header.param3 ∧
    (∀ st : State, st.infile = infile → st.header = header →
      (bufferBody st u).2 = true ∧
      (bufferBody st u).1.event = st.event ∧
      (bufferBody st u).1.rawdata = st.rawdata ∧
      (bufferBody st u).1.buffer_num = st.buffer_num ∧
      (bufferBody st u).1.entry_num = st.entry_num ∧
      (bufferBody st u).1.header = (ReadBuffer infile header u).2.1) := by
  rcases ReadBuffer_cases infile header u with ⟨_, h⟩ | ⟨_, h0, _⟩
  · refine ⟨?_, ?_, ?_, ?_, ?_, ?_, ?_, ?_, ?_, ?_, ?_, ?_⟩
    all_goals first
      | (rw [h]; done)
      | (intro st hin hhd
         subst hin hhd
         simp only [bufferBody, h, if_true, and_self])
  · rw [h0] at hret
    exact absurd hret (by decide)

theorem C19_ReadBuffer_stop_frame_witness :
    (ReadBuffer (ifstream.open sampleEnd)
      { header0 with headerlength := 21, buffernumber := 7, runID := 9, mcpdID := 1,
                     status := 3, headerTS := 1000, param0 := 11, param1 := 12,
                     param2 := 13, param3 := 14 } (fun _ => locals0)).2.2 = 1 ∧
    (ReadBuffer (ifstream.open sampleEnd)
      { header0 with headerlength := 21, buffernumber := 7, runID := 9, mcpdID := 1,
                     status := 3, headerTS := 1000, param0 := 11, param1 := 12,
                     param2 := 13, param3 := 14 } (fun _ => locals0)).2.1 =
      { bufferlength := 21, buffertype := 0, headerlength := 21, buffernumber := 7,
        runID := 9, mcpdID := 1, status := 3, headerTS := 1000, param0 := 11,
        param1 := 12, param2 := 13, param3 := 14 } :=
  have h := C19_ReadBuffer_stop_frame (ifstream.open sampleEnd)
    { header0 with headerlength := 21, buffernumber := 7, runID := 9, mcpdID := 1,
                   status := 3, headerTS := 1000, param0 := 11, param1 := 12,
                   param2 := 13, param3 := 14 } (fun _ => locals0) (by decide)
  ⟨by decide, h.1.trans (by decide)⟩

/-! ## A first buffer of the wrong type -/

theorem ReadHeader_open (file : List Byte) (h : 58 ≤ file.length) :
    ReadHeader (ifstream.open file) = { rest := file.drop 58, pos := 58, fail := false } := by
  unfold ReadHeader
  rw [read_ok _ 58 rfl (by simpa [ifstream.open] using h)]
  simp [ifstream.advance, ifstream.open]

/-- C12: when the type word right after the 58-byte preamble differs from
`0x0002`, the driver returns after the first `ReadBuffer` call (a bound of one
pass is enough): no record was emitted, both counters are zero, the global
event is untouched and exactly `58 + 4` bytes were consumed. -/
theorem C12_first_buffer_wrong_type (file : List Byte) (header : Header) (event : Event)
    (u : Nat → Nat → Locals) (extra : Nat) (hlen : 58 + 4 ≤ file.length)
    (htype : wordAt file 60 ≠ 0x0002) :
    mdat_conv (extra + 1) file header event u =
      some { infile := { rest := file.drop (58 + 4), pos := 58 + 4, fail := false },
             header := { header with bufferlength := wordAt file 58,
                                     buffertype := wordAt file 60 },
             event := event, rawdata := [], buffer_num := 0, entry_num := 0 } := by
  have hread := ReadHeader_open file (by omega)
  have hrb := ReadBuffer_stop { rest := file.drop 58, pos := 58, fail := false } header (u 0)
    rfl (by simp only [List.length_drop]; omega)
    (by simp only [wordAt_drop]; exact htype)
  unfold mdat_conv
  rw [hread, bufferLoop]
  simp only [bufferBody, hrb, if_true, ifstream.advance, wordAt_drop, List.drop_drop,
    Nat.add_zero]

theorem C12_first_buffer_wrong_type_witness :
    (58 + 4 ≤ (samplePreamble ++ sampleEnd ++ sampleBuffer).length ∧
      wordAt (samplePreamble ++ sampleEnd ++ sampleBuffer) 60 ≠ 0x0002) ∧
    mdat_conv (0 + 1) (samplePreamble ++ sampleEnd ++ sampleBuffer) header0 event0
        (fun _ _ => locals0) =
      some { infile := { rest := sampleBuffer, pos := 62, fail := false },
             header := { header0 with bufferlength := 21, buffertype := 0 },
             event := event0, rawdata := [], buffer_num := 0, entry_num := 0 } :=
  ⟨⟨by decide, by decide⟩,
   (C12_first_buffer_wrong_type (samplePreamble ++ sampleEnd ++ sampleBuffer) header0 event0
     (fun _ _ => locals0) 0 (by decide) (by decide)).trans (by decide)⟩

/-! ## Records and the header of their buffer -/

theorem ReadBuffer_head (b : WireBuffer) (hwf : b.wellFormed) (header : Header)
    (u : Nat → Locals) :
    (ReadBuffer (ifstream.open b.head) header u).2.1 = headerAt b.head := by
  obtain ⟨hhead, htype, _, _, _⟩ := hwf
  rw [ReadBuffer_ok (ifstream.open b.head) header u rfl
    (by simp only [ifstream.open]; omega) htype]
  rfl

/-- C11: in a stream of complete well-formed buffers every record emitted
while buffer `i` is decoded carries the `mcpdID`, `status`, `param0..param3`
that `ReadBuffer` reads from the header bytes of buffer `i`, and its absolute
time is its `eventTS` plus the `headerTS` of that header; the records a pass
appends do not depend on the header left by the pass before. -/
theorem C11_records_carry_own_header (preamble : List Byte) (bufs : List WireBuffer)
    (term : List Byte) (header : Header) (event : Event) (u : Nat → Nat → Locals)
    (extra : Nat) (hpre : preamble.length = 58) (hwf : ∀ b ∈ bufs, b.wellFormed)
    (hterm : 4 ≤ term.length) (htype : wordAt term 2 ≠ 0x0002) :
    (∃ st : State,
      mdat_conv (bufs.length + 1 + extra) (preamble ++ wireBytes bufs ++ term)
        header event u = some st ∧
      st.rawdata = (bufs.map WireBuffer.records).flatten) ∧
    (∀ b ∈ bufs, ∀ r ∈ b.records, ∀ (h2 : Header) (u2 : Nat → Locals),
      r.mcpdID = (ReadBuffer (ifstream.open b.head) h2 u2).2.1.mcpdID ∧
      r.status = (ReadBuffer (ifstream.open b.head) h2 u2).2.1.status ∧
      r.param0 = (ReadBuffer (ifstream.open b.head) h2 u2).2.1.param0 ∧
      r.param1 = (ReadBuffer (ifstream.open b.head) h2 u2).2.1.param1 ∧
      r.param2 = (ReadBuffer (ifstream.open b.head) h2 u2).2.1.param2 ∧
      r.param3 = (ReadBuffer (ifstream.open b.head) h2 u2).2.1.param3 ∧
      r.time = r.eventTS + (ReadBuffer (ifstream.open b.head) h2 u2).2.1.headerTS) ∧
    (∀ b ∈ bufs, ∀ (st0 : State) (u0 : Nat → Locals) (tail : List Byte),
      st0.infile.fail = false → st0.infile.rest = b.bytes ++ tail →
      (bufferBody st0 u0).1.rawdata = st0.rawdata ++ b.records) := by
  have hread := ReadHeader_open (preamble ++ wireBytes bufs ++ term)
    (by simp only [List.length_append]; omega)
  obtain ⟨st, k1, k2, _⟩ := bufferLoop_wire bufs
    { infile := { rest := wireBytes bufs ++ term, pos := 58, fail := false },
      header := header, event := event, rawdata := [], buffer_num := 0, entry_num := 0 }
    u term extra hwf rfl rfl hterm htype (Nat.two_pow_pos 64) (Nat.two_pow_pos 64)
  refine ⟨⟨st, ?_, ?_⟩, ?_, ?_⟩
  · unfold mdat_conv
    rw [hread, List.append_assoc, List.drop_left' hpre]
    exact k1
  · simpa [wireRecords] using k2
  · intro b hb r hr h2 u2
    rw [ReadBuffer_head b (hwf b hb) h2 u2]
    simp only [WireBuffer.records, List.mem_map] at hr
    obtain ⟨e, _, rfl⟩ := hr
    exact ⟨rfl, rfl, rfl, rfl, rfl, rfl, rfl⟩
  · intro b hb st0 u0 tail hgood hrest
    exact (bufferBody_wire b st0 u0 tail (hwf b hb) hgood hrest).2.2.1

theorem C11_records_carry_own_header_witness :
    (samplePreamble.length = 58 ∧ (∀ b ∈ sampleBuffers, b.wellFormed) ∧
      4 ≤ sampleEnd.length ∧ wordAt sampleEnd 2 ≠ 0x0002) ∧
    (sampleBuffers.map (fun b => (b.records.map (fun r => r.time),
        (ReadBuffer (ifstream.open b.head) header0 (fun _ => locals0)).2.1.headerTS))
      = [([1100], 1000), ([2000, 526287], 2000)]) ∧
    ∃ st : State,
      mdat_conv (sampleBuffers.length + 1 + 0)
        (samplePreamble ++ wireBytes sampleBuffers ++ sampleEnd) header0 event0
        (fun _ _ => locals0) = some st ∧
      st.rawdata = (sampleBuffers.map WireBuffer.records).flatten :=
  ⟨⟨by decide, by decide, by decide, by decide⟩, by decide,
   (C11_records_carry_own_header samplePreamble sampleBuffers sampleEnd header0 event0
     (fun _ _ => locals0) 0 (by decide) (by decide) (by decide) (by decide)).1⟩

/-! ## The event count of a buffer -/

theorem buffer_entries_toNat (header : Header) :
    (buffer_entries header).toNat = (header.bufferlength - 21) / 3 := by
  unfold buffer_entries
  by_cases h : 21 ≤ header.bufferlength
  · rw [Int.tdiv_eq_ediv (by omega) (by decide)]
    omega
  · have hneg : (header.bufferlength : Int) - 21 = -((21 : Int) - header.bufferlength) := by
      omega
    have hpos : 0 ≤ Int.tdiv ((21 : Int) - header.bufferlength) 3 :=
      Int.tdiv_nonneg (by omega) (by decide)
    rw [hneg, Int.neg_tdiv]
    omega

theorem buffer_entries_neg (header : Header) (h : header.bufferlength ≤ 18) :
    buffer_entries header < 0 := by
  unfold buffer_entries
  have hneg : (header.bufferlength : Int) - 21 = -((21 : Int) - header.bufferlength) := by
    omega
  rw [hneg, Int.neg_tdiv, Int.tdiv_eq_ediv (by omega) (by decide)]
  omega

theorem bufferBody_continue (st : State) (u : Nat → Locals)
    (hgood : st.infile.fail = false) (hlen : 42 ≤ st.infile.rest.length)
    (htype : wordAt st.infile.rest 2 = 0x0002) :
    bufferBody st u =
      ({ eventLoop ((wordAt st.infile.rest 0 - 21) / 3)
            { st with infile := st.infile.advance 42, header := headerAt st.infile.rest,
                      buffer_num := (st.buffer_num + 1) % 2 ^ 64 }
            (fun i => u (5 + i)) with
         infile := ReadBufferEnd
           (eventLoop ((wordAt st.infile.rest 0 - 21) / 3)
             { st with infile := st.infile.advance 42, header := headerAt st.infile.rest,
                       buffer_num := (st.buffer_num + 1) % 2 ^ 64 }
             (fun i => u (5 + i))).infile },
       false) := by
  have hrb := ReadBuffer_ok st.infile st.header u hgood hlen htype
  have hbe : (buffer_entries (headerAt st.infile.rest)).toNat
      = (wordAt st.infile.rest 0 - 21) / 3 := buffer_entries_toNat _
  simp only [bufferBody, hrb, hbe, Nat.zero_ne_one, if_false]

/-- C17: the number of events the driver decodes for a buffer with a header of
type `0x0002` is `max(0, trunc((bufferLength - 21) / 3))`, whatever the 16-bit
`bufferLength`: that many records are appended and the count is at most 21838.
For `bufferLength <= 18` the `int` expression is negative.  For `bufferLength <
24` (with the 42 header bytes and the 8 padding bytes available) the pass
appends no record, does not break, consumes the header and the four padding
words only, and the loop goes on with the next header. -/
theorem C17_event_count (st : State) (u : Nat → Locals)
    (hgood : st.infile.fail = false) (hlen : 42 ≤ st.infile.rest.length)
    (htype : wordAt st.infile.rest 2 = 0x0002) :
    (bufferBody st u).1.header.bufferlength = wordAt st.infile.rest 0 ∧
    wordAt st.infile.rest 0 < 2 ^ 16 ∧
    ((buffer_entries (bufferBody st u).1.header).toNat : Int)
      = max 0 (Int.tdiv ((wordAt st.infile.rest 0 : Int) - 21) 3) ∧
    (buffer_entries (bufferBody st u).1.header).toNat = (wordAt st.infile.rest 0 - 21) / 3 ∧
    (bufferBody st u).2 = false ∧
    (bufferBody st u).1.rawdata.length
      = st.rawdata.length + (buffer_entries (bufferBody st u).1.header).toNat ∧
    (buffer_entries (bufferBody st u).1.header).toNat ≤ 21838 ∧
    (wordAt st.infile.rest 0 ≤ 18 → buffer_entries (bufferBody st u).1.header < 0) ∧
    (wordAt st.infile.rest 0 < 24 → 42 + 8 ≤ st.infile.rest.length →
      (bufferBody st u).1.rawdata = st.rawdata ∧
      (bufferBody st u).1.entry_num = st.entry_num ∧
      (bufferBody st u).1.event = st.event ∧
      (bufferBody st u).1.infile = st.infile.advance (42 + 8) ∧
      (∀ (fuel : Nat) (U : Nat → Nat → Locals), U 0 = u →
        bufferLoop (fuel + 1) st U
          = bufferLoop fuel (bufferBody st u).1 (fun b => U (b + 1)))) := by
  have hbody := bufferBody_continue st u hgood hlen htype
  have hw := wordAt_lt st.infile.rest 0
  have hhd : (bufferBody st u).1.header = headerAt st.infile.rest := by
    rw [hbody]; exact eventLoop_header _ _ _
  have hbl : (headerAt st.infile.rest).bufferlength = wordAt st.infile.rest 0 := rfl
  have hcount : (buffer_entries (headerAt st.infile.rest)).toNat
      = (wordAt st.infile.rest 0 - 21) / 3 := by
    rw [buffer_entries_toNat, hbl]
  rw [hhd, hcount]
  refine ⟨hbl, hw, ?_, rfl, ?_, ?_, ?_, ?_, ?_⟩
  · rw [← hcount, Int.toNat_eq_max, max_comm]
    rfl
  · rw [hbody]
  · rw [hbody]; exact eventLoop_rawdata_length _ _ _
  · omega
  · intro h18
    exact buffer_entries_neg _ (by rw [hbl]; exact h18)
  · intro h24 h50
    have hzero : (wordAt st.infile.rest 0 - 21) / 3 = 0 := by omega
    have hpad := ReadBufferEnd_adv st.infile 42 (by omega)
    have hfalse : (bufferBody st u).2 = false := by rw [hbody]
    rw [hzero] at hbody
    simp only [eventLoop] at hbody
    refine ⟨?_, ?_, ?_, ?_, ?_⟩
    · rw [hbody]
    · rw [hbody]
    · rw [hbody]
    · rw [hbody]; exact hpad
    · intro fuel U hU
      subst hU
      rw [bufferLoop]
      simp only [hfalse, Bool.false_eq_true, if_false]

theorem C17_event_count_witness :
    (sampleShortState.infile.fail = false ∧ 42 ≤ sampleShortState.infile.rest.length ∧
      wordAt sampleShortState.infile.rest 2 = 0x0002 ∧
      wordAt sampleShortState.infile.rest 0 = 5 ∧
      buffer_entries (headerAt sampleShortState.infile.rest) = -5) ∧
    (bufferBody sampleShortState (fun _ => locals0)).2 = false ∧
    (bufferBody sampleShortState (fun _ => locals0)).1.rawdata.length = 0 ∧
    (bufferBody sampleShortState (fun _ => locals0)).1.infile
      = { rest := [], pos := 50, fail := false } :=
  have h := C17_event_count sampleShortState (fun _ => locals0) (by decide) (by decide)
    (by decide)
  ⟨⟨by decide, by decide, by decide, by decide, by decide⟩, h.2.2.2.2.1,
    h.2.2.2.2.2.1.trans (by decide),
    (h.2.2.2.2.2.2.2.2 (by decide) (by decide)).2.2.2.1.trans (by decide)⟩

/-! ## Reads that come up short -/

theorem read_fail (s : ifstream) (n : Nat) (h : s.fail = true) : s.read n = (s, []) := by
  simp [ifstream.read, h]

theorem read_short (s : ifstream) (n : Nat) (hgood : s.fail = false)
    (hlen : s.rest.length < n) :
    s.read n = ({ rest := [], pos := s.pos + s.rest.length, fail := true }, s.rest) := by
  have h1 : s.rest.take n = s.rest := List.take_of_length_le (by omega)
  have h2 : s.rest.drop n = [] := List.drop_of_length_le (by omega)
  simp [ifstream.read, hgood, h1, h2, hlen]

theorem ReadWord_fail (s : ifstream) (w : Nat) (h : s.fail = true) :
    ReadWord s w = (s, ByteSwap16 w) := by
  simp [ReadWord, read_fail s 2 h, loadWord]

theorem ReadByte_fail (s : ifstream) (b : Nat) (h : s.fail = true) :
    ReadByte s b = (s, b) := by
  simp [ReadByte, read_fail s 1 h, loadByte]

theorem ReadWord_short (s : ifstream) (w : Nat) (hgood : s.fail = false)
    (hlen : s.rest.length < 2) :
    ReadWord s w = ({ rest := [], pos := s.pos + s.rest.length, fail := true },
                    ByteSwap16 (loadWord s.rest w)) := by
  simp [ReadWord, read_short s 2 hgood hlen]

theorem ReadByte_short (s : ifstream) (b : Nat) (hgood : s.fail = false)
    (hlen : s.rest = []) :
    ReadByte s b = ({ rest := [], pos := s.pos, fail := true }, b) := by
  have h := read_short s 1 hgood (by rw [hlen]; decide)
  simp [ReadByte, h, hlen, loadByte]

theorem ReadEntry_fail (s : ifstream) (u : Locals) (h : s.fail = true) :
    ReadEntry s u =
      (s, (ByteSwap16 u.low ||| (ByteSwap16 u.mid <<< 16) ||| (ByteSwap16 u.high <<< 32))
            % 2 ^ 64) := by
  simp only [ReadEntry, ReadWord_fail s _ h]

theorem ReadWord_failed (rest : List Byte) (pos w : Nat) :
    ReadWord { rest := rest, pos := pos, fail := true } w
      = ({ rest := rest, pos := pos, fail := true }, ByteSwap16 w) :=
  ReadWord_fail _ w rfl

theorem ReadEntry_short (s : ifstream) (u : Locals) (hgood : s.fail = false)
    (hlen : s.rest.length < 6) :
    (ReadEntry s u).1 = { rest := [], pos := s.pos + s.rest.length, fail := true } := by
  unfold ReadEntry
  simp only []
  by_cases h2 : s.rest.length < 2
  · rw [ReadWord_short s _ hgood h2]
    simp only [ReadWord_failed]
  · rw [ReadWord_ok s _ hgood (by omega)]
    simp only []
    by_cases h4 : s.rest.length < 4
    · rw [ReadWord_short (s.advance 2) _ rfl (by simp; omega)]
      simp only [ReadWord_failed, advance_pos, advance_rest, List.length_drop,
        ifstream.mk.injEq, and_true, true_and]
      omega
    · rw [ReadWord_adv s 2 _ (by omega)]
      simp only []
      rw [ReadWord_short (s.advance (2 + 2)) _ rfl (by simp; omega)]
      simp only [advance_pos, advance_rest, List.length_drop, ifstream.mk.injEq,
        and_true, true_and]
      omega

theorem eventLoop_fail (n : Nat) (st : State) (u : Nat → Locals)
    (h : st.infile.fail = true) : (eventLoop n st u).infile = st.infile := by
  induction n generalizing st u with
  | zero => rfl
  | succ n ih =>
    have hb : (eventBody st (u 0)).infile = st.infile := by
      simp only [eventBody, ReadEvent, ReadEntry_fail _ _ h]
    rw [eventLoop, ih _ _ (by rw [hb]; exact h), hb]

/-- C13 fails as stated: with three bytes left when the event read is
attempted, the event loop still hands a record to the tree, built from the one
complete word, the one byte read of the second word and the previous contents
of the locals; the whole run on the truncated file returns with that record in
the tree. -/
theorem C13_truncated_event_is_filled :
    truncatedState.infile.fail = false ∧ truncatedState.infile.rest.length < 6 ∧
    (eventBody truncatedState locals0).rawdata =
      [{ xpos := 704, ypos := 2, amp := 0, time := 5660, eventID := 0, eventTS := 4660,
         mcpdID := 1, status := 0, param0 := 11, param1 := 12, param2 := 13,
         param3 := 14 }] ∧
    Option.map State.rawdata
        (mdat_conv 2 truncatedFile header0 event0 (fun _ _ => locals0)) =
      some [{ xpos := 704, ypos := 2, amp := 0, time := 5660, eventID := 0,
              eventTS := 4660, mcpdID := 1, status := 0, param0 := 11, param1 := 12,
              param2 := 13, param3 := 14 }] := by
  decide

/-- C13 as amended: a short read is not reported.  When fewer than 6 bytes
remain on a good stream as an event read is attempted, `ReadEvent` takes the
bytes that are left and puts the stream in the failed state, and the driver
still hands exactly one record to the tree for that event and counts it; every
later iteration reads nothing and hands over one more record.  Likewise
`ReadWord` with fewer than 2 bytes and `ReadByte` with none return a value
made of the bytes read and the previous content of their destination, and on a
failed stream they return that previous content (byte-swapped for
`ReadWord`). -/
theorem C13_short_read_not_reported (st : State) (u : Locals)
    (hgood : st.infile.fail = false) (hshort : st.infile.rest.length < 6) :
    (eventBody st u).rawdata
      = st.rawdata ++ [Fill st.header (ReadEvent st.infile st.header u).2] ∧
    (eventBody st u).entry_num = (st.entry_num + 1) % 2 ^ 64 ∧
    (eventBody st u).infile
      = { rest := [], pos := st.infile.pos + st.infile.rest.length, fail := true } ∧
    (∀ (n : Nat) (U : Nat → Locals),
      (eventLoop n (eventBody st u) U).rawdata.length = st.rawdata.length + 1 + n ∧
      (eventLoop n (eventBody st u) U).infile = (eventBody st u).infile) ∧
    (∀ (s : ifstream) (w : Nat), s.fail = false → s.rest.length < 2 →
      ReadWord s w = ({ rest := [], pos := s.pos + s.rest.length, fail := true },
                      ByteSwap16 (loadWord s.rest w))) ∧
    (∀ (s : ifstream) (b : Nat), s.fail = false → s.rest = [] →
      ReadByte s b = ({ rest := [], pos := s.pos, fail := true }, b)) ∧
    (∀ (s : ifstream) (w b : Nat), s.fail = true →
      ReadWord s w = (s, ByteSwap16 w) ∧ ReadByte s b = (s, b)) := by
  have hin : (eventBody st u).infile
      = { rest := [], pos := st.infile.pos + st.infile.rest.length, fail := true } :=
    ReadEntry_short st.infile u hgood hshort
  refine ⟨rfl, rfl, hin, ?_, ?_, ?_, ?_⟩
  · intro n U
    refine ⟨?_, eventLoop_fail n _ U (by rw [hin])⟩
    rw [eventLoop_rawdata_length]
    simp [eventBody]
  · intro s w hs hl
    exact ReadWord_short s w hs hl
  · intro s b hs hl
    exact ReadByte_short s b hs hl
  · intro s w b hs
    exact ⟨ReadWord_fail s w hs, ReadByte_fail s b hs⟩

theorem C13_short_read_not_reported_witness :
    (truncatedState.infile.fail = false ∧ truncatedState.infile.rest.length < 6) ∧
    (eventBody truncatedState locals0).rawdata.length = 1 ∧
    (eventBody truncatedState locals0).entry_num = 1 ∧
    (eventBody truncatedState locals0).infile = { rest := [], pos := 103, fail := true } :=
  have h := C13_short_read_not_reported truncatedState locals0 (by decide) (by decide)
  ⟨⟨by decide, by decide⟩, (congrArg List.length h.1).trans (by decide),
    h.2.1.trans (by decide), h.2.2.1.trans (by decide)⟩

/-! ## Termination of the buffer loop -/

theorem ifstream.Later.refl (s : ifstream) : s.Later s :=
  ⟨Nat.le_refl _, fun _ => rfl⟩

theorem ifstream.Later.trans {s1 s2 s3 : ifstream} (h12 : s1.Later s2) (h23 : s2.Later s3) :
    s1.Later s3 := by
  refine ⟨Nat.le_trans h23.1 h12.1, ?_⟩
  intro hf
  have e2 := h12.2 hf
  have e3 := h23.2 (by rw [e2]; exact hf)
  rw [e3, e2]

theorem read_later (s : ifstream) (n : Nat) : s.Later (s.read n).1 := by
  by_cases h : s.fail = true
  · rw [read_fail s n h]
    exact ifstream.Later.refl s
  · refine ⟨?_, fun hf => absurd hf h⟩
    simp [ifstream.read, h]

theorem ReadWord_later (s : ifstream) (w : Nat) : s.Later (ReadWord s w).1 :=
  read_later s 2

theorem ReadByte_later (s : ifstream) (b : Nat) : s.Later (ReadByte s b).1 :=
  read_later s 1

theorem ReadEntry_later (s : ifstream) (u : Locals) : s.Later (ReadEntry s u).1 := by
  unfold ReadEntry
  simp only []
  refine ifstream.Later.trans ?_ (ReadWord_later _ _)
  refine ifstream.Later.trans ?_ (ReadWord_later _ _)
  exact ReadWord_later _ _

theorem ReadBufferEnd_later (s : ifstream) : s.Later (ReadBufferEnd s) := by
  unfold ReadBufferEnd
  refine ifstream.Later.trans ?_ (ReadWord_later _ _)
  refine ifstream.Later.trans ?_ (ReadWord_later _ _)
  refine ifstream.Later.trans ?_ (ReadWord_later _ _)
  exact ReadWord_later _ _

theorem eventLoop_later (n : Nat) (st : State) (u : Nat → Locals) :
    st.infile.Later (eventLoop n st u).infile := by
  induction n generalizing st u with
  | zero => exact ifstream.Later.refl _
  | succ n ih =>
    rw [eventLoop]
    exact ifstream.Later.trans (ReadEntry_later st.infile (u 0)) (ih (eventBody st (u 0)) _)

theorem ReadBuffer_later (s : ifstream) (header : Header) (u : Nat → Locals) :
    (ReadWord s header.bufferlength).1.Later (ReadBuffer s header u).1 := by
  by_cases h : (ReadWord (ReadWord s header.bufferlength).1 header.buffertype).2 = 0x0002
  · unfold ReadBuffer
    simp only []
    rw [if_neg (not_not.mpr h)]
    simp only []
    refine ifstream.Later.trans ?_ (ReadEntry_later _ _)
    refine ifstream.Later.trans ?_ (ReadEntry_later _ _)
    refine ifstream.Later.trans ?_ (ReadEntry_later _ _)
    refine ifstream.Later.trans ?_ (ReadEntry_later _ _)
    refine ifstream.Later.trans ?_ (ReadEntry_later _ _)
    refine ifstream.Later.trans ?_ (ReadByte_later _ _)
    refine ifstream.Later.trans ?_ (ReadByte_later _ _)
    refine ifstream.Later.trans ?_ (ReadWord_later _ _)
    refine ifstream.Later.trans ?_ (ReadWord_later _ _)
    refine ifstream.Later.trans ?_ (ReadWord_later _ _)
    exact ReadWord_later _ _
  · unfold ReadBuffer
    simp only []
    rw [if_pos h]
    exact ReadWord_later (ReadWord s header.bufferlength).1 header.buffertype

theorem ReadWord_good_cases (s : ifstream) (w : Nat) (hgood : s.fail = false) :
    (ReadWord s w).1.fail = true ∨ (ReadWord s w).1.rest.length + 2 ≤ s.rest.length := by
  by_cases h : 2 ≤ s.rest.length
  · right
    rw [ReadWord_ok s w hgood h]
    simp only [advance_rest, List.length_drop]
    omega
  · left
    rw [ReadWord_short s w hgood (by omega)]

theorem bufferBody_continues (st : State) (u : Nat → Locals)
    (hcont : (bufferBody st u).2 = false) :
    (ReadWord (ReadWord st.infile st.header.bufferlength).1 st.header.buffertype).2
      = 0x0002 ∧
    (bufferBody st u).1.header.buffertype = 0x0002 ∧
    (ReadWord st.infile st.header.bufferlength).1.Later (bufferBody st u).1.infile := by
  rcases ReadBuffer_cases st.infile st.header u with ⟨_, h⟩ | ⟨h2, h0, hbt⟩
  · simp [bufferBody, h] at hcont
  · have hl := ReadBuffer_later st.infile st.header u
    have hne : ¬ ((ReadBuffer st.infile st.header u).2.2 = 1) := by rw [h0]; decide
    simp only [bufferBody, if_neg hne]
    refine ⟨h2, ?_, ?_⟩
    · rw [eventLoop_header]; exact hbt
    · exact ifstream.Later.trans (ifstream.Later.trans hl (eventLoop_later _ _ _))
        (ReadBufferEnd_later _)

theorem loopMeasure_decreases (st : State) (u : Nat → Locals)
    (hcont : (bufferBody st u).2 = false) :
    loopMeasure (bufferBody st u).1 < loopMeasure st := by
  obtain ⟨h2, hbt, hl⟩ := bufferBody_continues st u hcont
  have hswap : ByteSwap16 0x0002 ≠ 0x0002 := by decide
  by_cases hf : st.infile.fail = true
  · rw [ReadWord_fail st.infile _ hf] at h2 hl
    simp only [] at h2 hl
    rw [ReadWord_fail st.infile _ hf] at h2
    simp only [] at h2
    have hin : (bufferBody st u).1.infile = st.infile := hl.2 hf
    simp only [loopMeasure, hin, hf, hbt, if_true, h2, if_neg hswap]
    decide
  · have hgood : st.infile.fail = false := by
      cases h : st.infile.fail with
      | true => exact absurd h hf
      | false => rfl
    have hm : loopMeasure st = st.infile.rest.length + 2 := by
      simp [loopMeasure, hgood]
    have hm2 : loopMeasure (bufferBody st u).1 ≤ 1 ∨
        ((bufferBody st u).1.infile.fail = false ∧
          loopMeasure (bufferBody st u).1 = (bufferBody st u).1.infile.rest.length + 2) := by
      cases h : (bufferBody st u).1.infile.fail with
      | true =>
        left
        simp only [loopMeasure, h, if_true]
        split <;> omega
      | false =>
        right
        exact ⟨rfl, by simp [loopMeasure, h]⟩
    rcases hm2 with h1 | ⟨hg2, hm2⟩
    · omega
    · rcases ReadWord_good_cases st.infile st.header.bufferlength hgood with hw | hw
      · have := hl.2 hw
        rw [this, hw] at hg2
        exact absurd hg2 (by decide)
      · have := hl.1
        omega

theorem bufferLoop_terminates (n : Nat) (st : State) (u : Nat → Nat → Locals)
    (h : loopMeasure st < n) : ∃ st2 : State, bufferLoop n st u = some st2 := by
  induction n generalizing st u with
  | zero => exact absurd h (Nat.not_lt_zero _)
  | succ n ih =>
    rw [bufferLoop]
    cases hb : (bufferBody st (u 0)).2 with
    | true => exact ⟨(bufferBody st (u 0)).1, by simp [hb]⟩
    | false =>
      have hdec := loopMeasure_decreases st (u 0) hb
      simpa using ih (bufferBody st (u 0)).1 (fun b => u (b + 1)) (by omega)

theorem loopMeasure_le (st : State) : loopMeasure st ≤ st.infile.rest.length + 2 := by
  unfold loopMeasure
  split
  · split <;> omega
  · omega

theorem mdat_conv_terminates (file : List Byte) (header : Header) (event : Event)
    (u : Nat → Nat → Locals) :
    ∃ st : State, mdat_conv (file.length + 3) file header event u = some st := by
  unfold mdat_conv
  apply bufferLoop_terminates
  have h1 := loopMeasure_le
    { infile := ReadHeader (ifstream.open file), header := header, event := event,
      rawdata := [], buffer_num := 0, entry_num := 0 }
  have h2 : (ReadHeader (ifstream.open file)).rest.length ≤ file.length :=
    (read_later (ifstream.open file) 58).1
  simp only [] at h1
  omega

theorem ByteSwap16_small (x : Nat) (h : x < 256) : ByteSwap16 x = x * 256 := by
  have h2 := ByteSwap16_bytes x 0 h (by decide)
  simpa using h2

theorem ReadBuffer_exhausted (s : ifstream) (header : Header)
    (hex : s.fail = true ∨ s.rest.length < 4) (hbt : header.buffertype < 256) :
    (ReadWord (ReadWord s header.bufferlength).1 header.buffertype).2 ≠ 0x0002 := by
  have hstale : ByteSwap16 header.buffertype ≠ 0x0002 := by
    rw [ByteSwap16_small _ hbt]; omega
  by_cases hf : s.fail = true
  · rw [ReadWord_fail s _ hf]
    simp only []
    rw [ReadWord_fail s _ hf]
    exact hstale
  · have hgood : s.fail = false := by
      cases h : s.fail with
      | true => exact absurd h hf
      | false => rfl
    have hlen : s.rest.length < 4 := by
      rcases hex with h | h
      · exact absurd h hf
      · exact h
    by_cases h2 : s.rest.length < 2
    · rw [ReadWord_short s _ hgood h2]
      simp only [ReadWord_failed]
      exact hstale
    · rw [ReadWord_ok s _ hgood (by omega)]
      simp only []
      rw [ReadWord_short (s.advance 2) _ rfl (by simp; omega)]
      simp only [advance_rest]
      have hl2 : (s.rest.drop 2).length < 2 := by simp; omega
      match hd : s.rest.drop 2, hl2 with
      | [], _ => exact hstale
      | [b], _ =>
        have hb := b.isLt
        have hraw : loadWord [b] header.buffertype = b.val := by
          simp only [loadWord]; omega
        rw [hraw, ByteSwap16_small _ hb]
        omega

/-- C14: for every input byte sequence, whatever the globals hold at the start
and whatever the uninitialised locals hold, the `while(true)` loop of the
driver returns after at most `length + 2` passes (the bound `length + 3`
counts the pass that breaks).  A pass breaks exactly when the type word
delivered by the second `ReadWord` is not `0x0002`; and a pass that starts on
a failed stream, or with fewer than 4 bytes left, breaks whenever the stored
type is below 256, which is so at program start (0) and after every pass that
did not break (`0x0002`). -/
theorem C14_buffer_loop_terminates (file : List Byte) (header : Header) (event : Event)
    (u : Nat → Nat → Locals) :
    (∃ st : State, mdat_conv (file.length + 3) file header event u = some st) ∧
    (∀ (st : State) (U : Nat → Nat → Locals),
      ∃ st2 : State, bufferLoop (st.infile.rest.length + 3) st U = some st2) ∧
    (∀ (st : State) (v : Nat → Locals),
      ((bufferBody st v).2 = true ↔
        (ReadWord (ReadWord st.infile st.header.bufferlength).1 st.header.buffertype).2
          ≠ 0x0002) ∧
      ((bufferBody st v).2 = false → (bufferBody st v).1.header.buffertype = 0x0002) ∧
      ((st.infile.fail = true ∨ st.infile.rest.length < 4) →
        st.header.buffertype < 256 → (bufferBody st v).2 = true)) := by
  have hiff : ∀ (st : State) (v : Nat → Locals),
      ((bufferBody st v).2 = true ↔
        (ReadWord (ReadWord st.infile st.header.bufferlength).1 st.header.buffertype).2
          ≠ 0x0002) := by
    intro st v
    rcases ReadBuffer_cases st.infile st.header v with ⟨hne, h⟩ | ⟨h2, h0, _⟩
    · simp [bufferBody, h, hne]
    · have hne : ¬ ((ReadBuffer st.infile st.header v).2.2 = 1) := by rw [h0]; decide
      simp [bufferBody, if_neg hne, h2]
  refine ⟨mdat_conv_terminates file header event u, ?_, ?_⟩
  · intro st U
    exact bufferLoop_terminates _ st U (by have := loopMeasure_le st; omega)
  · intro st v
    refine ⟨hiff st v, fun hc => (bufferBody_continues st v hc).2.1, ?_⟩
    intro hex hbt
    exact (hiff st v).mpr (ReadBuffer_exhausted st.infile st.header hex hbt)

theorem C14_buffer_loop_terminates_witness :
    ∃ st : State, mdat_conv (truncatedFile.length + 3) truncatedFile header0 event0
      (fun _ _ => locals0) = some st :=
  (C14_buffer_loop_terminates truncatedFile header0 event0 (fun _ _ => locals0)).1

/-! ## The preamble -/

theorem ReadHeader_congr (f1 f2 : List Byte) (hlen : f1.length = f2.length)
    (hdrop : f1.drop 58 = f2.drop 58) :
    ReadHeader (ifstream.open f1) = ReadHeader (ifstream.open f2) := by
  simp [ReadHeader, ifstream.read, ifstream.open, List.length_take, hlen, hdrop]

/-- C15: the 58-byte preamble is not interpreted: two inputs of the same
length that agree from byte 58 on give the same result of the driver for
every bound on the passes, and the driver returns on both with one and the
same final state, hence the same sequence of records and the same counts. -/
theorem C15_preamble_not_interpreted (f1 f2 : List Byte) (header : Header) (event : Event)
    (u : Nat → Nat → Locals) (hlen : f1.length = f2.length)
    (hdrop : f1.drop 58 = f2.drop 58) :
    (∀ fuel : Nat, mdat_conv fuel f1 header event u = mdat_conv fuel f2 header event u) ∧
    (∃ st : State,
      mdat_conv (f1.length + 3) f1 header event u = some st ∧
      mdat_conv (f2.length + 3) f2 header event u = some st) := by
  have hall : ∀ fuel : Nat,
      mdat_conv fuel f1 header event u = mdat_conv fuel f2 header event u := by
    intro fuel
    unfold mdat_conv
    rw [ReadHeader_congr f1 f2 hlen hdrop]
  obtain ⟨st, hst⟩ := mdat_conv_terminates f1 header event u
  refine ⟨hall, st, hst, ?_⟩
  rw [← hlen, ← hall]
  exact hst

theorem C15_preamble_not_interpreted_witness :
    ((samplePreamble ++ sampleBuffer ++ sampleEnd).length = sampleFileZeroPreamble.length ∧
      (samplePreamble ++ sampleBuffer ++ sampleEnd).drop 58
        = sampleFileZeroPreamble.drop 58 ∧
      samplePreamble ++ sampleBuffer ++ sampleEnd ≠ sampleFileZeroPreamble) ∧
    Option.map State.rawdata
        (mdat_conv 2 (samplePreamble ++ sampleBuffer ++ sampleEnd) header0 event0
          (fun _ _ => locals0)) =
      Option.map State.rawdata
        (mdat_conv 2 sampleFileZeroPreamble header0 event0 (fun _ _ => locals0)) :=
  ⟨⟨by decide, by decide, by decide⟩,
   congrArg (Option.map State.rawdata)
     ((C15_preamble_not_interpreted (samplePreamble ++ sampleBuffer ++ sampleEnd)
       sampleFileZeroPreamble header0 event0 (fun _ _ => locals0) (by decide)
       (by decide)).1 2)⟩

end MdatConv
